import Mathlib

/-!
# Perturbarium — verification of the permutation / cipher / license / genetics core

Shallow embedding of the Python sources:

* `src/engineering/licensee/permutation.py` and
  `src/engineering/sineshift/mutator.py` (sine-scored permutation maps),
* `src/engineering/sinescramble/cipher.py` (SineScramble cipher),
* `src/implementations/xof-genetics/xof_genetics/organism.py` and
  `evolution.py` (hash-genome organisms and the evolutionary loop),
* `src/implementations/licensee/license_data.py`, `encoding.py`,
  `license_manager.py` (license codec).

Machine reals (`float`) appearing only inside the sine-based scoring
functions are abstracted: the scoring primitive (`math.sin` composed with
float arithmetic) is a parameter `sinQ : ℚ → ℚ`, since every property
settled here is independent of the concrete score values.  Byte strings
are `List ℕ` (values < 256 where it matters), characters are their ASCII
codes, fallible Python code (raise / try-except) is `Except String`.
-/

namespace Perturbarium

/-! ## Permutation Core

`scatter f positions i acc` is the common in-place assignment loop
`for k, p in enumerate(positions): acc[p] = f (i + k)` used by
`permutation.py` to build permutation maps, inverse maps, and to apply
them (`List.set` is a no-op out of range, exactly like the source never
indexes out of range on valid inputs).  -/

def scatter {α : Type} (f : ℕ → α) : List ℕ → ℕ → List α → List α
  | [], _, acc => acc
  | p :: rest, i, acc => scatter f rest (i + 1) (acc.set p (f i))

theorem scatter_length {α : Type} (f : ℕ → α) :
    ∀ (m : List ℕ) (i : ℕ) (acc : List α), (scatter f m i acc).length = acc.length := by
  intro m
  induction m with
  | nil => intro i acc; rfl
  | cons p rest ih => intro i acc; simp [scatter, ih, List.length_set]

theorem scatter_getElem?_not_mem {α : Type} (f : ℕ → α) :
    ∀ (m : List ℕ) (i : ℕ) (acc : List α) (j : ℕ), j ∉ m →
      (scatter f m i acc)[j]? = acc[j]? := by
  intro m
  induction m with
  | nil => intro i acc j _; rfl
  | cons p rest ih =>
      intro i acc j hj
      simp only [List.mem_cons, not_or] at hj
      rw [scatter, ih (i + 1) _ j hj.2, List.getElem?_set_ne (Ne.symm hj.1)]

theorem scatter_getElem?_mem {α : Type} (f : ℕ → α) :
    ∀ (m : List ℕ) (i : ℕ) (acc : List α) (j : ℕ), m.Nodup → j ∈ m → j < acc.length →
      (scatter f m i acc)[j]? = some (f (i + m.indexOf j)) := by
  intro m
  induction m with
  | nil => intro i acc j _ hj _; cases hj
  | cons p rest ih =>
      intro i acc j hnd hj hlen
      rw [List.nodup_cons] at hnd
      rw [scatter]
      by_cases hpj : j = p
      · subst hpj
        rw [scatter_getElem?_not_mem f rest (i + 1) _ j hnd.1,
            List.getElem?_set_self hlen, List.indexOf_cons_self, Nat.add_zero]
      · rcases List.mem_cons.mp hj with h | h
        · exact absurd h hpj
        · rw [ih (i + 1) _ j hnd.2 h (by simpa [List.length_set] using hlen),
              List.indexOf_cons_ne _ (Ne.symm hpj)]
          congr 2
          omega

/-- Lexicographic order on `(score, index)` pairs — Python's `list.sort()` on
2-tuples, which breaks score ties by the original index. -/
def pairLe (a b : ℚ × ℕ) : Prop := a.1 < b.1 ∨ (a.1 = b.1 ∧ a.2 ≤ b.2)

instance : DecidableRel pairLe := fun a b => by unfold pairLe; exact inferInstance

instance : IsTotal (ℚ × ℕ) pairLe where
  total a b := by
    rcases lt_trichotomy a.1 b.1 with h | h | h
    · exact Or.inl (Or.inl h)
    · rcases Nat.le_total a.2 b.2 with h2 | h2
      · exact Or.inl (Or.inr ⟨h, h2⟩)
      · exact Or.inr (Or.inr ⟨h.symm, h2⟩)
    · exact Or.inr (Or.inl h)

instance : IsTrans (ℚ × ℕ) pairLe where
  trans a b c hab hbc := by
    rcases hab with h1 | ⟨h1, h1'⟩ <;> rcases hbc with h2 | ⟨h2, h2'⟩
    · exact Or.inl (h1.trans h2)
    · exact Or.inl (h2 ▸ h1)
    · exact Or.inl (h1 ▸ h2)
    · exact Or.inr ⟨h1.trans h2, h1'.trans h2'⟩

/-- `[(score(i), i) for i in range(n)]`, the scored index list. -/
def scoredIndices (score : ℕ → ℚ) (n : ℕ) : List (ℚ × ℕ) :=
  (List.range n).map (fun i => (score i, i))

/-- `scored_indices.sort()` followed by the assignment loop
`for new_pos, (score, original_pos) in enumerate(sorted): map[original_pos] = new_pos`
(the loop is `scatter id` over the sorted original indices). -/
def sinePermMap (score : ℕ → ℚ) (n : ℕ) : List ℕ :=
  scatter id ((List.insertionSort pairLe (scoredIndices score n)).map Prod.snd) 0
    (List.replicate n 0)

/-- `TOTAL_CHARS_TO_PERMUTE` from `permutation.py`. -/
def TOTAL_CHARS_TO_PERMUTE : ℕ := 440

/-- The licensee score `math.sin(swap_param * 100.0 + i * 0.2) * 1000.0 + i`
(`sinQ` abstracts `math.sin` over floats). -/
def licScore (sinQ : ℚ → ℚ) (swap_param : ℚ) (i : ℕ) : ℚ :=
  sinQ (swap_param * 100 + i * (2 / 10)) * 1000 + i

/-- `get_permutation_map` from `engineering/licensee/permutation.py`:
rejects `swap_param` outside `[0, 1]`, otherwise builds the sine permutation
map over the fixed size 440. -/
def get_permutation_map (sinQ : ℚ → ℚ) (swap_param : ℚ) : Except String (List ℕ) :=
  if ¬ (0 ≤ swap_param ∧ swap_param ≤ 1) then
    Except.error "swap_param must be between 0.0 and 1.0"
  else
    Except.ok (sinePermMap (licScore sinQ swap_param) TOTAL_CHARS_TO_PERMUTE)

/-- Python float `%` for a positive divisor (`a - b * floor (a / b)`); used
only for `swap_param % (2 * math.pi)` in the mutator. -/
def pyMod (a b : ℚ) : ℚ := a - b * ⌊a / b⌋

/-- The SineShift mutator score: same formula, with the swap parameter first
normalized by `swap_param % (2π)` whenever `swap_param > 2π` (`twoPi` stands
for the float constant `2 * math.pi`). -/
def mutatorScore (sinQ : ℚ → ℚ) (twoPi : ℚ) (swap_param : ℚ) (i : ℕ) : ℚ :=
  sinQ ((if swap_param > twoPi then pyMod swap_param twoPi else swap_param) * 100
      + i * (2 / 10)) * 1000 + i

/-- `SineShiftMutator.generate_permutation_map` from
`engineering/sineshift/mutator.py`: rejects negative `swap_param`, accepts
every `swap_param ≥ 0`, permutes `frame_count` indices. -/
def generate_permutation_map (sinQ : ℚ → ℚ) (twoPi : ℚ) (frame_count : ℕ)
    (swap_param : ℚ) : Except String (List ℕ) :=
  if swap_param < 0 then Except.error "swap_param must be non-negative"
  else Except.ok (sinePermMap (mutatorScore sinQ twoPi swap_param) frame_count)

/-- `get_inverse_permutation_map`: the loop
`for original_pos, new_pos in enumerate(map): inverse_map[new_pos] = original_pos`. -/
def get_inverse_permutation_map (m : List ℕ) (n : ℕ) : List ℕ :=
  scatter id m 0 (List.replicate n 0)

/-- The assignment loop of `apply_permutation` (`permuted[new_pos] =
input[original_pos]`) and of `apply_inverse_permutation` (`original[original_pos]
= input[new_pos]`): both scatter the input along the given map. -/
def applyPermCore (input : List ℕ) (m : List ℕ) (n : ℕ) : List ℕ :=
  scatter (fun k => input.getD k 0) m 0 (List.replicate n 0)

/-- `apply_permutation` from `permutation.py` (length-checked, size 440). -/
def apply_permutation (input_chars : List ℕ) (m : List ℕ) : Except String (List ℕ) :=
  if input_chars.length ≠ TOTAL_CHARS_TO_PERMUTE then
    Except.error "Expected 440 characters"
  else if m.length ≠ TOTAL_CHARS_TO_PERMUTE then
    Except.error "Expected permutation map of size 440"
  else
    Except.ok (applyPermCore input_chars m TOTAL_CHARS_TO_PERMUTE)

/-- `apply_inverse_permutation` from `permutation.py`. -/
def apply_inverse_permutation (input_chars : List ℕ) (inv : List ℕ) :
    Except String (List ℕ) :=
  if input_chars.length ≠ TOTAL_CHARS_TO_PERMUTE then
    Except.error "Expected 440 characters"
  else if inv.length ≠ TOTAL_CHARS_TO_PERMUTE then
    Except.error "Expected inverse permutation map of size 440"
  else
    Except.ok (applyPermCore input_chars inv TOTAL_CHARS_TO_PERMUTE)

/-! ### Permutation-map facts -/

theorem scoredIndices_snd (score : ℕ → ℚ) (n : ℕ) :
    (scoredIndices score n).map Prod.snd = List.range n := by
  simp [scoredIndices, List.map_map, Function.comp_def]

/-- The sorted original-index list is a permutation of `range n`. -/
theorem sorted_snd_perm (score : ℕ → ℚ) (n : ℕ) :
    ((List.insertionSort pairLe (scoredIndices score n)).map Prod.snd).Perm
      (List.range n) := by
  have h := (List.perm_insertionSort pairLe (scoredIndices score n)).map Prod.snd
  rwa [scoredIndices_snd] at h

/-- A scatter whose position list is a permutation of `range n` realises the
lookup `j ↦ f (positions.indexOf j)` pointwise. -/
theorem scatter_perm_eq_map {α : Type} (f : ℕ → α) (d : α) (m : List ℕ) (n : ℕ)
    (hm : m.Perm (List.range n)) :
    scatter f m 0 (List.replicate n d) = (List.range n).map (fun j => f (m.indexOf j)) := by
  have hlen : m.length = n := by simpa using hm.length_eq
  have hnd : m.Nodup := hm.nodup_iff.mpr (List.nodup_range n)
  apply List.ext_getElem?
  intro j
  by_cases hj : j < n
  · have hjm : j ∈ m := hm.mem_iff.mpr (List.mem_range.mpr hj)
    rw [scatter_getElem?_mem f m 0 _ j hnd hjm (by simpa using hj),
        List.getElem?_map, List.getElem?_range hj]
    simp
  · have h1 : (scatter f m 0 (List.replicate n d))[j]? = none := by
      apply List.getElem?_eq_none
      rw [scatter_length]
      simpa using Nat.le_of_not_lt hj
    have h2 : ((List.range n).map (fun j => f (m.indexOf j)))[j]? = none := by
      apply List.getElem?_eq_none
      simpa using Nat.le_of_not_lt hj
    rw [h1, h2]

/-- The index-lookup list of a permutation of `range n` is itself a
permutation of `range n` (the permutation maps are bijections). -/
theorem indexOf_map_perm_range (m : List ℕ) (n : ℕ) (hm : m.Perm (List.range n)) :
    ((List.range n).map (fun j => m.indexOf j)).Perm (List.range n) := by
  have hlen : m.length = n := by simpa using hm.length_eq
  have hnd : ((List.range n).map (fun j => m.indexOf j)).Nodup := by
    refine List.Nodup.map_on ?_ (List.nodup_range n)
    intro x hx y hy hxy
    have hxm : x ∈ m := hm.mem_iff.mpr hx
    have hym : y ∈ m := hm.mem_iff.mpr hy
    have hx' := List.indexOf_get (List.indexOf_lt_length.mpr hxm)
    have hy' := List.indexOf_get (List.indexOf_lt_length.mpr hym)
    rw [← hx', ← hy']
    congr 1
    exact Fin.ext hxy
  have hsub : ((List.range n).map (fun j => m.indexOf j)) ⊆ List.range n := by
    intro x hx
    rcases List.mem_map.mp hx with ⟨j, hj, rfl⟩
    have : j ∈ m := hm.mem_iff.mpr hj
    exact List.mem_range.mpr (hlen ▸ List.indexOf_lt_length.mpr this)
  exact (List.subperm_of_subset hnd hsub).perm_of_length_le (by simp)

/-- `sinePermMap` produces a bijection of `[0..n)` for every score function. -/
theorem sinePermMap_perm_range (score : ℕ → ℚ) (n : ℕ) :
    (sinePermMap score n).Perm (List.range n) := by
  rw [sinePermMap, scatter_perm_eq_map id 0 _ n (sorted_snd_perm score n)]
  exact indexOf_map_perm_range _ n (sorted_snd_perm score n)

/-- The inverse map of a valid permutation map looks up positions in it. -/
theorem get_inverse_eq_map (m : List ℕ) (n : ℕ) (hm : m.Perm (List.range n)) :
    get_inverse_permutation_map m n = (List.range n).map (fun j => m.indexOf j) :=
  scatter_perm_eq_map id 0 m n hm

/-- Applying a valid permutation map and then its inverse map restores the
input exactly (core of `apply_permutation` / `apply_inverse_permutation`). -/
theorem applyPermCore_roundtrip (x m : List ℕ) (n : ℕ)
    (hm : m.Perm (List.range n)) (hx : x.length = n) :
    applyPermCore (applyPermCore x m n) (get_inverse_permutation_map m n) n = x := by
  have hmlen : m.length = n := by simpa using hm.length_eq
  have hmnd : m.Nodup := hm.nodup_iff.mpr (List.nodup_range n)
  have hinvP : (get_inverse_permutation_map m n).Perm (List.range n) := by
    rw [get_inverse_eq_map m n hm]; exact indexOf_map_perm_range m n hm
  have hinvnd : (get_inverse_permutation_map m n).Nodup :=
    hinvP.nodup_iff.mpr (List.nodup_range n)
  have hinvlen : (get_inverse_permutation_map m n).length = n := by
    simpa using hinvP.length_eq
  rw [applyPermCore, applyPermCore, scatter_perm_eq_map _ 0 m n hm,
      scatter_perm_eq_map _ 0 _ n hinvP]
  apply List.ext_getElem?
  intro i
  by_cases hi : i < n
  · have him : i < m.length := hmlen ▸ hi
    have hmi_lt : m[i] < n :=
      List.mem_range.mp (hm.mem_iff.mp (List.getElem_mem him))
    have hlt' : m[i] < (get_inverse_permutation_map m n).length := by
      rw [hinvlen]; exact hmi_lt
    have hgetinv : (get_inverse_permutation_map m n)[m[i]] = i := by
      have h0 : (get_inverse_permutation_map m n)[m[i]]? = some i := by
        rw [get_inverse_eq_map m n hm, List.getElem?_map, List.getElem?_range hmi_lt,
            Option.map_some']
        exact congrArg some (List.indexOf_getElem hmnd i him)
      rw [List.getElem?_eq_getElem hlt'] at h0
      exact Option.some.inj h0
    have hidx : (get_inverse_permutation_map m n).indexOf i = m[i] := by
      conv_lhs => rw [← hgetinv]
      exact List.indexOf_getElem hinvnd (m[i]) hlt'
    have hback : m.indexOf m[i] = i := List.indexOf_getElem hmnd i him
    rw [List.getElem?_map, List.getElem?_range hi, Option.map_some', hidx,
        List.getD_eq_getElem?_getD, List.getElem?_map, List.getElem?_range hmi_lt,
        Option.map_some', Option.getD_some, hback, List.getD_eq_getElem?_getD,
        List.getElem?_eq_getElem (hx ▸ hi), Option.getD_some]
  · rw [List.getElem?_eq_none (by simpa using Nat.le_of_not_lt hi),
        List.getElem?_eq_none (by rw [hx]; exact Nat.le_of_not_lt hi)]

theorem sinePermMap_length (score : ℕ → ℚ) (n : ℕ) : (sinePermMap score n).length = n := by
  rw [sinePermMap, scatter_length]; simp

theorem applyPermCore_length (x m : List ℕ) (n : ℕ) : (applyPermCore x m n).length = n := by
  rw [applyPermCore, scatter_length]; simp

theorem get_inverse_length (m : List ℕ) (n : ℕ) :
    (get_inverse_permutation_map m n).length = n := by
  rw [get_inverse_permutation_map, scatter_length]; simp

/-- **C3.** Permutation Core round-trip: for every key accepted by the
licensee map generator and every 440-character input, applying the generated
permutation map (`apply_permutation`) and then the inverse map
(`apply_inverse_permutation` of `get_inverse_permutation_map`) restores the
input exactly.  (The size-generic core of the statement — covering an
arbitrary `N`, as used by the SineShift mutator — is `applyPermCore_roundtrip`
together with `sinePermMap_perm_range`, which this proof instantiates at the
licensee's fixed `N = 440`.) -/
theorem C3_permutation_roundtrip (sinQ : ℚ → ℚ) (swap_param : ℚ) (x : List ℕ)
    (hs : 0 ≤ swap_param ∧ swap_param ≤ 1) (hx : x.length = TOTAL_CHARS_TO_PERMUTE) :
    ∃ m permuted,
      get_permutation_map sinQ swap_param = Except.ok m ∧
      apply_permutation x m = Except.ok permuted ∧
      apply_inverse_permutation permuted
        (get_inverse_permutation_map m TOTAL_CHARS_TO_PERMUTE) = Except.ok x := by
  refine ⟨sinePermMap (licScore sinQ swap_param) TOTAL_CHARS_TO_PERMUTE,
    applyPermCore x (sinePermMap (licScore sinQ swap_param) TOTAL_CHARS_TO_PERMUTE)
      TOTAL_CHARS_TO_PERMUTE, ?_, ?_, ?_⟩
  · rw [get_permutation_map, if_neg (by push_neg; exact hs)]
  · rw [apply_permutation, if_neg (by rw [hx]; exact fun h => h rfl),
        if_neg (by rw [sinePermMap_length]; exact fun h => h rfl)]
  · rw [apply_inverse_permutation,
        if_neg (by rw [applyPermCore_length]; exact fun h => h rfl),
        if_neg (by rw [get_inverse_length]; exact fun h => h rfl)]
    rw [applyPermCore_roundtrip x _ TOTAL_CHARS_TO_PERMUTE
        (sinePermMap_perm_range _ TOTAL_CHARS_TO_PERMUTE) hx]

/-- Witness for C3 at `sinQ = 0`, `swap_param = 0`, `x = 440 zero bytes`. -/
theorem C3_permutation_roundtrip_witness :
    ∃ m permuted,
      get_permutation_map (fun _ => 0) 0 = Except.ok m ∧
      apply_permutation (List.replicate TOTAL_CHARS_TO_PERMUTE 0) m = Except.ok permuted ∧
      apply_inverse_permutation permuted
        (get_inverse_permutation_map m TOTAL_CHARS_TO_PERMUTE)
        = Except.ok (List.replicate TOTAL_CHARS_TO_PERMUTE 0) :=
  C3_permutation_roundtrip (fun _ => 0) 0 (List.replicate TOTAL_CHARS_TO_PERMUTE 0)
    ⟨le_refl 0, by norm_num⟩ (by simp)

/-- **C8, counterexample.** The claim says the Licensee/SineShift-form map
generator accepts every real `s ≥ 0` (in particular `s > 1`); but the
licensee generator `get_permutation_map` rejects `s = 2` with a `ValueError`. -/
theorem C8_counterexample :
    get_permutation_map (fun _ => 0) 2
      = Except.error "swap_param must be between 0.0 and 1.0" := by
  rw [get_permutation_map, if_pos]
  norm_num

/-- **C8, amended.** Each of the two generators is a bijection factory on its
own accepted domain: the SineShift mutator `generate_permutation_map` accepts
every `s ≥ 0` (normalizing `s` by `mod 2π` when `s > 2π`) and returns a
permutation of `[0..frame_count)`; the licensee `get_permutation_map` accepts
only `0 ≤ s ≤ 1` and returns a permutation of `[0..440)` there. -/
theorem C8_amended_domains (sinQ : ℚ → ℚ) (twoPi : ℚ) (n : ℕ) (s s' : ℚ)
    (hs : 0 ≤ s) (hs' : 0 ≤ s' ∧ s' ≤ 1) :
    (∃ m, generate_permutation_map sinQ twoPi n s = Except.ok m ∧
      m.Perm (List.range n)) ∧
    (∃ m, get_permutation_map sinQ s' = Except.ok m ∧
      m.Perm (List.range TOTAL_CHARS_TO_PERMUTE)) := by
  constructor
  · refine ⟨sinePermMap (mutatorScore sinQ twoPi s) n, ?_, sinePermMap_perm_range _ n⟩
    rw [generate_permutation_map, if_neg (not_lt.mpr hs)]
  · refine ⟨sinePermMap (licScore sinQ s') TOTAL_CHARS_TO_PERMUTE, ?_,
      sinePermMap_perm_range _ TOTAL_CHARS_TO_PERMUTE⟩
    rw [get_permutation_map, if_neg (by push_neg; exact hs')]

/-- Witness for the amended C8: the mutator accepts `s = 2 > 1` on 8 frames;
the licensee generator accepts `s = 1/2`. -/
theorem C8_amended_domains_witness :
    (∃ m, generate_permutation_map (fun _ => 0) 7 8 2 = Except.ok m ∧
      m.Perm (List.range 8)) ∧
    (∃ m, get_permutation_map (fun _ => 0) (1 / 2) = Except.ok m ∧
      m.Perm (List.range TOTAL_CHARS_TO_PERMUTE)) :=
  C8_amended_domains (fun _ => 0) 7 8 2 (1 / 2) (by norm_num) ⟨by norm_num, by norm_num⟩

/-! ## SineScramble cipher (`engineering/sinescramble/cipher.py`)

Bytes are `ℕ` (the round primitive XORs a 0/1 mask bit, so byte range is
preserved).  `sinApprox` abstracts `np.sin` over floats, exactly as `sinQ`
does for the permutation core: the round-trip claims hold for every scoring
primitive. -/

inductive OperationMode where
  | MULTI_ROUND
  | SEGMENTED
deriving DecidableEq

/-- `SineScrambleCipher.__init__` state: key vector, mode and the scoring
parameters `A`, `ω`, `γ` (defaults `100, 0.1, 1`).  The constructor's
non-empty-key check appears as a hypothesis of the theorems below. -/
structure SineScrambleCipher where
  key : List ℚ
  mode : OperationMode
  amplitude : ℚ := 100
  frequency : ℚ := 1 / 10
  phase : ℚ := 1
deriving DecidableEq

/-- `_scoring_function`: `score_j(i) = A * sin(k_j * γ + i * ω) + i`. -/
def scoringFunction (sinApprox : ℚ → ℚ) (c : SineScrambleCipher) (k : ℚ) (i : ℕ) : ℚ :=
  c.amplitude * sinApprox (k * c.phase + i * c.frequency) + i

/-- `_generate_permutation_map`: `np.argsort(scores)` — sort the indices
`0..n-1` by score (deterministic; ties resolved by index order). -/
def argsortScores (score : ℕ → ℚ) (n : ℕ) : List ℕ :=
  List.insertionSort (fun i j => score i ≤ score j) (List.range n)

/-- `_generate_substitution_mask`: flip bit `i` iff `frac(score i) > 0.5`. -/
def substitutionMask (score : ℕ → ℚ) (n : ℕ) : List ℕ :=
  (List.range n).map (fun i => if score i - ⌊score i⌋ > 1 / 2 then 1 else 0)

/-- Numpy fancy indexing `data[π]` used by `_permute_data`. -/
def gatherData (data : List ℕ) (π : List ℕ) : List ℕ :=
  π.map (fun k => data.getD k 0)

/-- `_permute_data(data, π, inverse=True)`: build `inverse_map[π] = arange(n)`
(the same scatter loop as `get_inverse_permutation_map`) and gather along it. -/
def gatherDataInv (data : List ℕ) (π : List ℕ) (n : ℕ) : List ℕ :=
  gatherData data (get_inverse_permutation_map π n)

/-- `_substitute_data`: elementwise `data ^ mask`. -/
def substituteData (data mask : List ℕ) : List ℕ :=
  List.zipWith (fun a b => a ^^^ b) data mask

/-- `_transform_round`: permutation then substitution for encryption, and
substitution then inverse permutation for decryption, with the permutation
map and mask regenerated from the same key component and data size. -/
def transformRound (sinApprox : ℚ → ℚ) (c : SineScrambleCipher) (data : List ℕ)
    (k : ℚ) (inverse : Bool) : List ℕ :=
  let n := data.length
  let π := argsortScores (scoringFunction sinApprox c k) n
  let mask := substitutionMask (scoringFunction sinApprox c k) n
  if inverse then
    gatherDataInv (substituteData data mask) π n
  else
    substituteData (gatherData data π) mask

/-- `_encrypt_multi_round`: rounds with `k_1 .. k_n` in order. -/
def encryptMultiRound (sinApprox : ℚ → ℚ) (c : SineScrambleCipher)
    (data : List ℕ) : List ℕ :=
  c.key.foldl (fun d k => transformRound sinApprox c d k false) data

/-- `_decrypt_multi_round`: inverse rounds with `k_n .. k_1`. -/
def decryptMultiRound (sinApprox : ℚ → ℚ) (c : SineScrambleCipher)
    (data : List ℕ) : List ℕ :=
  c.key.reverse.foldl (fun d k => transformRound sinApprox c d k true) data

/-- The segment slicing of `_encrypt_segmented` / `_decrypt_segmented`:
`n` contiguous slabs of `segSize` bytes, the last slab taking the remainder. -/
def segmentSplit (data : List ℕ) : ℕ → ℕ → List (List ℕ)
  | 0, _ => []
  | 1, _ => [data]
  | Nat.succ (Nat.succ m), segSize =>
      data.take segSize :: segmentSplit (data.drop segSize) (m + 1) segSize

/-- `_encrypt_segmented`: error when `segment_size = 0`, otherwise transform
slab `i` once with key component `k_i` and concatenate. -/
def encryptSegmented (sinApprox : ℚ → ℚ) (c : SineScrambleCipher)
    (data : List ℕ) : Except String (List ℕ) :=
  if data.length / c.key.length = 0 then Except.error "Data too small for segments"
  else Except.ok
    ((List.zipWith (fun seg k => transformRound sinApprox c seg k false)
      (segmentSplit data c.key.length (data.length / c.key.length)) c.key).flatten)

/-- `_decrypt_segmented`. -/
def decryptSegmented (sinApprox : ℚ → ℚ) (c : SineScrambleCipher)
    (data : List ℕ) : Except String (List ℕ) :=
  if data.length / c.key.length = 0 then Except.error "Data too small for segments"
  else Except.ok
    ((List.zipWith (fun seg k => transformRound sinApprox c seg k true)
      (segmentSplit data c.key.length (data.length / c.key.length)) c.key).flatten)

/-- `SineScrambleCipher.encrypt`, dispatching on the mode. -/
def cipherEncrypt (sinApprox : ℚ → ℚ) (c : SineScrambleCipher)
    (data : List ℕ) : Except String (List ℕ) :=
  match c.mode with
  | OperationMode.MULTI_ROUND => Except.ok (encryptMultiRound sinApprox c data)
  | OperationMode.SEGMENTED => encryptSegmented sinApprox c data

/-- `SineScrambleCipher.decrypt`, dispatching on the mode. -/
def cipherDecrypt (sinApprox : ℚ → ℚ) (c : SineScrambleCipher)
    (data : List ℕ) : Except String (List ℕ) :=
  match c.mode with
  | OperationMode.MULTI_ROUND => Except.ok (decryptMultiRound sinApprox c data)
  | OperationMode.SEGMENTED => decryptSegmented sinApprox c data

/-! ### Cipher round-trip facts -/

theorem argsortScores_perm (score : ℕ → ℚ) (n : ℕ) :
    (argsortScores score n).Perm (List.range n) :=
  List.perm_insertionSort _ _

theorem argsortScores_length (score : ℕ → ℚ) (n : ℕ) :
    (argsortScores score n).length = n := by
  simpa using (argsortScores_perm score n).length_eq

theorem gatherData_length (data π : List ℕ) : (gatherData data π).length = π.length := by
  simp [gatherData]

theorem substituteData_length (d m : List ℕ) :
    (substituteData d m).length = min d.length m.length := by
  simp [substituteData]

theorem substitutionMask_length (score : ℕ → ℚ) (n : ℕ) :
    (substitutionMask score n).length = n := by
  simp [substitutionMask]

/-- XOR-ing the same mask twice is the identity. -/
theorem substituteData_cancel (y mask : List ℕ) (h : y.length = mask.length) :
    substituteData (substituteData y mask) mask = y := by
  induction y generalizing mask with
  | nil => simp [substituteData]
  | cons a as ih =>
      cases mask with
      | nil => simp at h
      | cons b bs =>
          simp only [substituteData, List.zipWith_cons_cons] at *
          rw [ih bs (by simpa using h), Nat.xor_assoc, Nat.xor_self, Nat.xor_zero]

/-- Gathering along a permutation and then along its scatter-built inverse
restores the input. -/
theorem gather_gather_inv (x π : List ℕ) (n : ℕ)
    (hπ : π.Perm (List.range n)) (hx : x.length = n) :
    gatherDataInv (gatherData x π) π n = x := by
  have hπlen : π.length = n := by simpa using hπ.length_eq
  have hπnd : π.Nodup := hπ.nodup_iff.mpr (List.nodup_range n)
  rw [gatherDataInv, get_inverse_eq_map π n hπ]
  apply List.ext_getElem?
  intro i
  by_cases hi : i < n
  · have hiπ : i ∈ π := hπ.mem_iff.mpr (List.mem_range.mpr hi)
    have hidxlt : π.indexOf i < π.length := List.indexOf_lt_length.mpr hiπ
    rw [gatherData, List.getElem?_map, List.getElem?_map, List.getElem?_range hi,
        Option.map_some', Option.map_some']
    rw [List.getD_eq_getElem?_getD, gatherData, List.getElem?_map,
        List.getElem?_eq_getElem hidxlt, Option.map_some', Option.getD_some]
    rw [List.getElem_indexOf hidxlt, List.getD_eq_getElem?_getD,
        List.getElem?_eq_getElem (hx ▸ hi), Option.getD_some]
  · rw [List.getElem?_eq_none (le_of_not_lt (by simpa [gatherData] using hi)),
        List.getElem?_eq_none (by rw [hx]; exact Nat.le_of_not_lt hi)]

theorem transformRound_length (sinApprox : ℚ → ℚ) (c : SineScrambleCipher)
    (data : List ℕ) (k : ℚ) (b : Bool) :
    (transformRound sinApprox c data k b).length = data.length := by
  cases b <;>
    simp [transformRound, gatherDataInv, gatherData_length, substituteData_length,
      argsortScores_length, substitutionMask_length, get_inverse_length]

/-- One inverse round undoes one forward round. -/
theorem transformRound_roundtrip (sinApprox : ℚ → ℚ) (c : SineScrambleCipher)
    (data : List ℕ) (k : ℚ) :
    transformRound sinApprox c (transformRound sinApprox c data k false) k true
      = data := by
  have hlen := transformRound_length sinApprox c data k false
  rw [show transformRound sinApprox c (transformRound sinApprox c data k false) k true
      = gatherDataInv
          (substituteData (transformRound sinApprox c data k false)
            (substitutionMask (scoringFunction sinApprox c k)
              (transformRound sinApprox c data k false).length))
          (argsortScores (scoringFunction sinApprox c k)
            (transformRound sinApprox c data k false).length)
          (transformRound sinApprox c data k false).length from rfl]
  rw [hlen]
  rw [show transformRound sinApprox c data k false
      = substituteData
          (gatherData data (argsortScores (scoringFunction sinApprox c k) data.length))
          (substitutionMask (scoringFunction sinApprox c k) data.length) from rfl]
  rw [substituteData_cancel _ _
      (by rw [gatherData_length, argsortScores_length, substitutionMask_length])]
  exact gather_gather_inv data _ data.length (argsortScores_perm _ data.length) rfl

/-- Multi-round decryption (reverse key order, inverse rounds) undoes
multi-round encryption, for every key vector. -/
theorem multiRound_roundtrip (sinApprox : ℚ → ℚ) (c : SineScrambleCipher)
    (data : List ℕ) :
    decryptMultiRound sinApprox c (encryptMultiRound sinApprox c data) = data := by
  rw [encryptMultiRound, decryptMultiRound]
  induction c.key generalizing data with
  | nil => rfl
  | cons k ks ih =>
      rw [List.foldl_cons, List.reverse_cons, List.foldl_append, ih, List.foldl_cons,
          List.foldl_nil, transformRound_roundtrip]

theorem segmentSplit_flatten (seg : ℕ) :
    ∀ (n : ℕ) (data : List ℕ), 1 ≤ n → (segmentSplit data n seg).flatten = data
  | 0, _, h => by omega
  | 1, data, _ => by simp [segmentSplit]
  | Nat.succ (Nat.succ m), data, _ => by
      rw [segmentSplit, List.flatten_cons,
          segmentSplit_flatten seg (m + 1) _ (by omega), List.take_append_drop]

theorem segmentSplit_length (seg : ℕ) :
    ∀ (n : ℕ) (data : List ℕ), (segmentSplit data n seg).length = n
  | 0, _ => rfl
  | 1, _ => rfl
  | Nat.succ (Nat.succ m), data => by
      rw [segmentSplit, List.length_cons, segmentSplit_length seg (m + 1) _]

/-- Transforming each slab with a length-preserving function and re-slicing
the concatenation recovers the transformed slabs. -/
theorem segmentSplit_zipWith (seg : ℕ) (f : List ℕ → ℚ → List ℕ)
    (hf : ∀ s k, (f s k).length = s.length) :
    ∀ (n : ℕ) (data : List ℕ) (ks : List ℚ), ks.length = n → 1 ≤ n →
      n * seg ≤ data.length →
      segmentSplit ((List.zipWith f (segmentSplit data n seg) ks).flatten) n seg
        = List.zipWith f (segmentSplit data n seg) ks
  | 0, _, _, _, h, _ => by omega
  | 1, data, ks, hks, _, _ => by
      cases ks with
      | nil => simp at hks
      | cons k ks' =>
          cases ks' with
          | nil => simp [segmentSplit]
          | cons k2 ks2 => simp at hks
  | Nat.succ (Nat.succ m), data, ks, hks, _, hle => by
      cases ks with
      | nil => simp at hks
      | cons k ks' =>
          have hseg_le : seg ≤ data.length := by
            calc seg = 1 * seg := (Nat.one_mul seg).symm
            _ ≤ (m + 2) * seg := Nat.mul_le_mul_right seg (by omega)
            _ ≤ data.length := hle
          have htake : (f (data.take seg) k).length = seg := by
            rw [hf, List.length_take]
            omega
          have hrest : (m + 1) * seg ≤ (data.drop seg).length := by
            rw [List.length_drop]
            have : (m + 1) * seg + seg ≤ data.length := by
              rw [← Nat.succ_mul]; exact hle
            omega
          rw [show segmentSplit data (Nat.succ (Nat.succ m)) seg
                = data.take seg :: segmentSplit (data.drop seg) (m + 1) seg from rfl,
              List.zipWith_cons_cons, List.flatten_cons, segmentSplit,
              List.take_left' htake, List.drop_left' htake,
              segmentSplit_zipWith seg f hf (m + 1) (data.drop seg) ks'
                (by simpa using hks) (by omega) hrest]

theorem zipWith_flatten_length (f : List ℕ → ℚ → List ℕ)
    (hf : ∀ s k, (f s k).length = s.length) :
    ∀ (parts : List (List ℕ)) (ks : List ℚ), parts.length = ks.length →
      ((List.zipWith f parts ks).flatten).length = parts.flatten.length := by
  intro parts
  induction parts with
  | nil => intro ks _; rfl
  | cons p ps ih =>
      intro ks hks
      cases ks with
      | nil => simp at hks
      | cons k ks' =>
          rw [List.zipWith_cons_cons, List.flatten_cons, List.flatten_cons,
              List.length_append, List.length_append, hf, ih ks' (by simpa using hks)]

theorem zipWith_comp_right {α β : Type} (f g : α → β → α) :
    ∀ (as : List α) (bs : List β),
      List.zipWith g (List.zipWith f as bs) bs
        = List.zipWith (fun a b => g (f a b) b) as bs := by
  intro as
  induction as with
  | nil => intro bs; rfl
  | cons a as' ih =>
      intro bs
      cases bs with
      | nil => rfl
      | cons b bs' => rw [List.zipWith_cons_cons, List.zipWith_cons_cons,
          List.zipWith_cons_cons, ih bs']

theorem zipWith_fst {α β : Type} :
    ∀ (as : List α) (bs : List β), as.length = bs.length →
      List.zipWith (fun a _ => a) as bs = as := by
  intro as
  induction as with
  | nil => intro bs _; rfl
  | cons a as' ih =>
      intro bs hab
      cases bs with
      | nil => simp at hab
      | cons b bs' => rw [List.zipWith_cons_cons, ih bs' (by simpa using hab)]

/-- Segmented decryption undoes segmented encryption when the buffer holds at
least one byte per key component. -/
theorem segmented_roundtrip (sinApprox : ℚ → ℚ) (c : SineScrambleCipher)
    (data : List ℕ) (hkey : c.key ≠ []) (hsize : c.key.length ≤ data.length) :
    (encryptSegmented sinApprox c data).bind (decryptSegmented sinApprox c)
      = Except.ok data := by
  have hn : 1 ≤ c.key.length := List.length_pos.mpr hkey
  have hseg_pos : 0 < data.length / c.key.length := Nat.div_pos hsize (by omega)
  have hmul : c.key.length * (data.length / c.key.length) ≤ data.length := by
    rw [Nat.mul_comm]
    exact Nat.div_mul_le_self data.length c.key.length
  have hflen : ∀ s k, (transformRound sinApprox c s k false).length = s.length :=
    fun s k => transformRound_length sinApprox c s k false
  have hElen :
      ((List.zipWith (fun s k => transformRound sinApprox c s k false)
        (segmentSplit data c.key.length (data.length / c.key.length))
        c.key).flatten).length = data.length := by
    rw [zipWith_flatten_length _ hflen _ c.key (by rw [segmentSplit_length]),
        segmentSplit_flatten _ _ data hn]
  rw [encryptSegmented, if_neg (by omega)]
  show decryptSegmented sinApprox c _ = Except.ok data
  rw [decryptSegmented, hElen, if_neg (by omega)]
  rw [segmentSplit_zipWith _ _ hflen c.key.length data c.key rfl hn hmul,
      zipWith_comp_right]
  have hfun : (fun (s : List ℕ) (k : ℚ) =>
      transformRound sinApprox c (transformRound sinApprox c s k false) k true)
      = fun s _ => s := by
    funext s k
    exact transformRound_roundtrip sinApprox c s k
  rw [hfun, zipWith_fst _ c.key (by rw [segmentSplit_length]),
      segmentSplit_flatten _ _ data hn]

/-- **C1.** SineScramble round-trip: for every scoring primitive, every
non-empty key vector, both operation modes, and every byte buffer of valid
size (at least one byte per key component in segmented mode),
`decrypt (encrypt x) = x`, where encryption applies permute-then-XOR rounds
and decryption applies XOR-then-inverse-permute rounds in reverse key order. -/
theorem C1_sinescramble_roundtrip (sinApprox : ℚ → ℚ) (c : SineScrambleCipher)
    (data : List ℕ) (hkey : c.key ≠ [])
    (hsize : c.mode = OperationMode.SEGMENTED → c.key.length ≤ data.length) :
    (cipherEncrypt sinApprox c data).bind (cipherDecrypt sinApprox c)
      = Except.ok data := by
  obtain ⟨key, mode, A, freq, ph⟩ := c
  cases mode with
  | MULTI_ROUND =>
      show Except.ok (decryptMultiRound sinApprox
          ⟨key, OperationMode.MULTI_ROUND, A, freq, ph⟩
          (encryptMultiRound sinApprox
            ⟨key, OperationMode.MULTI_ROUND, A, freq, ph⟩ data)) = Except.ok data
      rw [multiRound_roundtrip]
  | SEGMENTED =>
      exact segmented_roundtrip sinApprox
        ⟨key, OperationMode.SEGMENTED, A, freq, ph⟩ data hkey (hsize rfl)

/-- Witness for C1: multi-round mode with the documented default parameters,
key `[1.5, 2.5]`, and a 3-byte buffer. -/
theorem C1_sinescramble_roundtrip_witness :
    (cipherEncrypt (fun _ => 0)
        { key := [3 / 2, 5 / 2], mode := OperationMode.MULTI_ROUND }
        [72, 105, 33]).bind
      (cipherDecrypt (fun _ => 0)
        { key := [3 / 2, 5 / 2], mode := OperationMode.MULTI_ROUND })
      = Except.ok [72, 105, 33] :=
  C1_sinescramble_roundtrip (fun _ => 0)
    { key := [3 / 2, 5 / 2], mode := OperationMode.MULTI_ROUND }
    [72, 105, 33] (by simp) (by intro h; cases h)

/-- **C9.** Segmented-mode size precondition: with a key of length `n`, both
segmented encryption and decryption reject a buffer shorter than `n` bytes
(the computed segment size is 0) and accept buffers of length at least `n`. -/
theorem C9_segmented_size_guard (sinApprox : ℚ → ℚ) (c : SineScrambleCipher)
    (data : List ℕ) (hkey : c.key ≠ []) :
    (data.length < c.key.length →
      encryptSegmented sinApprox c data = Except.error "Data too small for segments" ∧
      decryptSegmented sinApprox c data = Except.error "Data too small for segments") ∧
    (c.key.length ≤ data.length →
      (∃ y, encryptSegmented sinApprox c data = Except.ok y) ∧
      (∃ y, decryptSegmented sinApprox c data = Except.ok y)) := by
  have hn : 1 ≤ c.key.length := List.length_pos.mpr hkey
  constructor
  · intro hlt
    have hz : data.length / c.key.length = 0 := Nat.div_eq_of_lt hlt
    constructor
    · rw [encryptSegmented, if_pos hz]
    · rw [decryptSegmented, if_pos hz]
  · intro hge
    have hz : data.length / c.key.length ≠ 0 :=
      Nat.pos_iff_ne_zero.mp (Nat.div_pos hge (by omega))
    constructor
    · exact ⟨_, by rw [encryptSegmented, if_neg hz]⟩
    · exact ⟨_, by rw [decryptSegmented, if_neg hz]⟩

/-- Witness for C9: key `[1.0, 2.0]` rejects a 1-byte buffer and accepts a
2-byte buffer, in both directions. -/
theorem C9_segmented_size_guard_witness :
    (((1 : ℕ) < 2 →
      encryptSegmented (fun _ => 0)
          { key := [1, 2], mode := OperationMode.SEGMENTED } [65]
        = Except.error "Data too small for segments" ∧
      decryptSegmented (fun _ => 0)
          { key := [1, 2], mode := OperationMode.SEGMENTED } [65]
        = Except.error "Data too small for segments")) ∧
    (((2 : ℕ) ≤ 2 →
      (∃ y, encryptSegmented (fun _ => 0)
          { key := [1, 2], mode := OperationMode.SEGMENTED } [65, 66]
        = Except.ok y) ∧
      (∃ y, decryptSegmented (fun _ => 0)
          { key := [1, 2], mode := OperationMode.SEGMENTED } [65, 66]
        = Except.ok y))) :=
  ⟨(C9_segmented_size_guard (fun _ => 0)
      { key := [1, 2], mode := OperationMode.SEGMENTED } [65] (by simp)).1,
   (C9_segmented_size_guard (fun _ => 0)
      { key := [1, 2], mode := OperationMode.SEGMENTED } [65, 66] (by simp)).2⟩

/-! ## SHA-256 (FIPS 180-4), the concrete `hashlib.sha256` used by
`SHA256Hash.hash` in `xof_genetics/organism.py`.  Bytes and 32-bit words are
`ℕ` reduced mod `2^32` where overflow matters. -/

def w32 (x : ℕ) : ℕ := x % 4294967296

def rotr32 (x n : ℕ) : ℕ := w32 ((x >>> n) ||| (x <<< (32 - n)))

def shaCh (e f g : ℕ) : ℕ := (e &&& f) ^^^ ((e ^^^ 4294967295) &&& g)

def shaMaj (a b c : ℕ) : ℕ := (a &&& b) ^^^ (a &&& c) ^^^ (b &&& c)

def bigSigma0 (x : ℕ) : ℕ := rotr32 x 2 ^^^ rotr32 x 13 ^^^ rotr32 x 22

def bigSigma1 (x : ℕ) : ℕ := rotr32 x 6 ^^^ rotr32 x 11 ^^^ rotr32 x 25

def smallSigma0 (x : ℕ) : ℕ := rotr32 x 7 ^^^ rotr32 x 18 ^^^ (x >>> 3)

def smallSigma1 (x : ℕ) : ℕ := rotr32 x 17 ^^^ rotr32 x 19 ^^^ (x >>> 10)

def sha256K : List ℕ :=
  [1116352408, 1899447441, 3049323471, 3921009573, 961987163, 1508970993,
   2453635748, 2870763221, 3624381080, 310598401, 607225278, 1426881987,
   1925078388, 2162078206, 2614888103, 3248222580, 3835390401, 4022224774,
   264347078, 604807628, 770255983, 1249150122, 1555081692, 1996064986,
   2554220882, 2821834349, 2952996808, 3210313671, 3336571891, 3584528711,
   113926993, 338241895, 666307205, 773529912, 1294757372, 1396182291,
   1695183700, 1986661051, 2177026350, 2456956037, 2730485921, 2820302411,
   3259730800, 3345764771, 3516065817, 3600352804, 4094571909, 275423344,
   430227734, 506948616, 659060556, 883997877, 958139571, 1322822218,
   1537002063, 1747873779, 1955562222, 2024104815, 2227730452, 2361852424,
   2428436474, 2756734187, 3204031479, 3329325298]

/-- The eight working variables of the compression function. -/
structure SHAState where
  a : ℕ
  b : ℕ
  c : ℕ
  d : ℕ
  e : ℕ
  f : ℕ
  g : ℕ
  h : ℕ
deriving DecidableEq

def sha256H0 : SHAState :=
  ⟨1779033703, 3144134277, 1013904242, 2773480762,
   1359893119, 2600822924, 528734635, 1541459225⟩

def shaRound (st : SHAState) (k w : ℕ) : SHAState :=
  let t1 := w32 (st.h + bigSigma1 st.e + shaCh st.e st.f st.g + k + w)
  let t2 := w32 (bigSigma0 st.a + shaMaj st.a st.b st.c)
  ⟨w32 (t1 + t2), st.a, st.b, st.c, w32 (st.d + t1), st.e, st.f, st.g⟩

/-- Message-schedule expansion: append words 16..63. -/
def schedRec (w : List ℕ) : ℕ → List ℕ
  | 0 => w
  | Nat.succ k =>
      schedRec (w ++ [w32 (smallSigma1 (w.getD (w.length - 2) 0)
        + w.getD (w.length - 7) 0 + smallSigma0 (w.getD (w.length - 15) 0)
        + w.getD (w.length - 16) 0)]) k

def compressBlock (st : SHAState) (block : List ℕ) : SHAState :=
  let w := schedRec block 48
  let fin := (List.zip sha256K w).foldl (fun s kw => shaRound s kw.1 kw.2) st
  ⟨w32 (st.a + fin.a), w32 (st.b + fin.b), w32 (st.c + fin.c), w32 (st.d + fin.d),
   w32 (st.e + fin.e), w32 (st.f + fin.f), w32 (st.g + fin.g), w32 (st.h + fin.h)⟩

/-- Big-endian 4-byte groups to 32-bit words. -/
def bytesToWordsBE : List ℕ → List ℕ
  | b0 :: b1 :: b2 :: b3 :: rest =>
      (b0 * 16777216 + b1 * 65536 + b2 * 256 + b3) :: bytesToWordsBE rest
  | _ => []

def wordBytesBE (w : ℕ) : List ℕ :=
  [(w >>> 24) &&& 255, (w >>> 16) &&& 255, (w >>> 8) &&& 255, w &&& 255]

def lenBytes8 (n : ℕ) : List ℕ :=
  [(n >>> 56) &&& 255, (n >>> 48) &&& 255, (n >>> 40) &&& 255, (n >>> 32) &&& 255,
   (n >>> 24) &&& 255, (n >>> 16) &&& 255, (n >>> 8) &&& 255, n &&& 255]

/-- FIPS padding: `0x80`, zeros to 56 mod 64, 8-byte big-endian bit length. -/
def padMsg (msg : List ℕ) : List ℕ :=
  msg ++ [128] ++ List.replicate ((119 - msg.length % 64) % 64) 0
    ++ lenBytes8 (8 * msg.length)

def chunks64Fuel : ℕ → List ℕ → List (List ℕ)
  | 0, _ => []
  | _, [] => []
  | Nat.succ fuel, l => l.take 64 :: chunks64Fuel fuel (l.drop 64)

/-- 64-byte blocks (fuel-indexed structural recursion; `l.length` steps more
than suffice since every step consumes 64 bytes). -/
def chunks64 (l : List ℕ) : List (List ℕ) := chunks64Fuel l.length l

def sha256 (msg : List ℕ) : List ℕ :=
  let st := ((chunks64 (padMsg msg)).map bytesToWordsBE).foldl compressBlock sha256H0
  wordBytesBE st.a ++ wordBytesBE st.b ++ wordBytesBE st.c ++ wordBytesBE st.d
    ++ wordBytesBE st.e ++ wordBytesBE st.f ++ wordBytesBE st.g ++ wordBytesBE st.h

theorem sha256_length (msg : List ℕ) : (sha256 msg).length = 32 := by
  rw [sha256]
  simp [wordBytesBE]

/-- Sanity check against the published digest of the empty message,
`e3b0c442 98fc1c14 9afbf4c8 996fb924 27ae41e4 649b934c a495991b 7852b855`. -/
theorem sha256_empty_digest :
    sha256 [] = [0xe3, 0xb0, 0xc4, 0x42, 0x98, 0xfc, 0x1c, 0x14,
                 0x9a, 0xfb, 0xf4, 0xc8, 0x99, 0x6f, 0xb9, 0x24,
                 0x27, 0xae, 0x41, 0xe4, 0x64, 0x9b, 0x93, 0x4c,
                 0xa4, 0x95, 0x99, 0x1b, 0x78, 0x52, 0xb8, 0x55] := by
  decide

/-! ### `SHA256Hash.hash` (the fixed-digest XOF of `organism.py`) -/

/-- The `while len(extended) < length: extended += sha256(extended).digest()`
loop of `SHA256Hash.hash`, fuel-indexed (each pass appends 32 bytes, so
`length` passes always suffice and surplus fuel is never consumed). -/
def extendFuel : ℕ → List ℕ → ℕ → List ℕ
  | 0, extended, _ => extended
  | Nat.succ fuel, extended, len =>
      if extended.length < len then extendFuel fuel (extended ++ sha256 extended) len
      else extended

/-- `SHA256Hash.hash(data, length)` from `organism.py`: take a prefix of the
digest when it is long enough, otherwise repeatedly append the SHA-256 of the
whole accumulated buffer and truncate. -/
def sha256HashXof (data : List ℕ) (len : ℕ) : List ℕ :=
  if len ≤ (sha256 data).length then (sha256 data).take len
  else (extendFuel len (sha256 data) len).take len

/-- The spec's (§4.2) wording of the fixed-digest variant, for comparison:
`h_0 = SHA256(D)`, `h_{k+1} = SHA256(h_k)`, return the first `L` bytes of
`h_0 ‖ h_1 ‖ …`. -/
def specFixedDigestXof (data : List ℕ) (len : ℕ) : List ℕ :=
  if len ≤ 32 then (sha256 data).take len
  else ((List.range ((len + 31) / 32)).map
    (fun k => sha256^[k] (sha256 data))).flatten.take len

theorem extendFuel_length_ge :
    ∀ (fuel : ℕ) (acc : List ℕ) (len : ℕ), len ≤ acc.length + 32 * fuel →
      len ≤ (extendFuel fuel acc len).length
  | 0, acc, len, h => by simpa [extendFuel] using h
  | Nat.succ fuel, acc, len, h => by
      rw [extendFuel]
      by_cases hlt : acc.length < len
      · rw [if_pos hlt]
        exact extendFuel_length_ge fuel _ len
          (by simp only [List.length_append, sha256_length]; omega)
      · rw [if_neg hlt]; omega

theorem extendFuel_eq_iterate :
    ∀ (fuel : ℕ) (acc : List ℕ) (len : ℕ),
      ∃ m, extendFuel fuel acc len = (fun x => x ++ sha256 x)^[m] acc
  | 0, acc, len => ⟨0, rfl⟩
  | Nat.succ fuel, acc, len => by
      rw [extendFuel]
      by_cases hlt : acc.length < len
      · rw [if_pos hlt]
        obtain ⟨m, hm⟩ := extendFuel_eq_iterate fuel (acc ++ sha256 acc) len
        exact ⟨m + 1, by rw [hm, Function.iterate_succ_apply]⟩
      · rw [if_neg hlt]; exact ⟨0, rfl⟩

theorem iterate_append_length (acc : List ℕ) :
    ∀ m, ((fun x => x ++ sha256 x)^[m] acc).length = acc.length + 32 * m := by
  intro m
  induction m generalizing acc with
  | zero => simp
  | succ m ih =>
      rw [Function.iterate_succ_apply, ih]
      simp only [List.length_append, sha256_length]
      omega

theorem iterate_append_take (k : ℕ) :
    ∀ (m : ℕ) (acc : List ℕ), k ≤ acc.length →
      ((fun x => x ++ sha256 x)^[m] acc).take k = acc.take k := by
  intro m
  induction m with
  | zero => intro acc _; rfl
  | succ m ih =>
      intro acc hk
      rw [Function.iterate_succ_apply, ih (acc ++ sha256 acc) (by simp; omega)]
      exact List.take_eq_left_iff.mpr (Or.inr hk)

/-- Any two sufficiently long iterates agree on the first `k` bytes. -/
theorem iterate_append_take_eq (k : ℕ) (acc : List ℕ) (m₁ m₂ : ℕ)
    (h₁ : k ≤ ((fun x => x ++ sha256 x)^[m₁] acc).length) :
    m₁ ≤ m₂ →
    ((fun x => x ++ sha256 x)^[m₂] acc).take k
      = ((fun x => x ++ sha256 x)^[m₁] acc).take k := by
  intro hm
  have := iterate_append_take k (m₂ - m₁) ((fun x => x ++ sha256 x)^[m₁] acc) h₁
  rwa [← Function.iterate_add_apply, Nat.sub_add_cancel hm] at this

/-- The while-loop result, truncated, equals the clean iteration truncated. -/
theorem sha256HashXof_eq_iterate (data : List ℕ) (len : ℕ) :
    sha256HashXof data len
      = ((fun x => x ++ sha256 x)^[len] (sha256 data)).take len := by
  rw [sha256HashXof]
  have hlen32 : (sha256 data).length = 32 := sha256_length data
  by_cases hle : len ≤ (sha256 data).length
  · rw [if_pos hle, iterate_append_take len len (sha256 data) hle]
  · rw [if_neg hle]
    obtain ⟨m, hm⟩ := extendFuel_eq_iterate len (sha256 data) len
    rw [hm]
    have hmge : len ≤ ((fun x => x ++ sha256 x)^[m] (sha256 data)).length := by
      rw [← hm]
      exact extendFuel_length_ge len (sha256 data) len (by omega)
    have hLge : len ≤ ((fun x => x ++ sha256 x)^[len] (sha256 data)).length := by
      rw [iterate_append_length]
      omega
    rcases Nat.le_total m len with h | h
    · exact (iterate_append_take_eq len (sha256 data) m len hmge h).symm
    · exact iterate_append_take_eq len (sha256 data) len m hLge h

/-- **C5, counterexample.** The claim describes the expansion as the chain
`h_0 ‖ h_1 ‖ …` with `h_{k+1} = SHA256(h_k)`; but `SHA256Hash.hash` appends
`SHA256` of the *entire accumulated buffer* (`extended += sha256(extended)`),
so from the third 32-byte block on (`L ≥ 65`) the outputs differ: at
`D = b""`, `L = 65` the code's byte 64 is `SHA256(h_0 ‖ h_1)[0]`, not
`SHA256(h_1)[0]`. -/
theorem C5_counterexample : sha256HashXof [] 65 ≠ specFixedDigestXof [] 65 := by
  set_option maxRecDepth 100000 in decide

/-- **C5, amended.** `SHA256Hash.hash(D, L)` returns the first `L` bytes of
`SHA256(D)` when `L ≤ 32`; otherwise it returns the first `L` bytes of the
buffer obtained by repeatedly appending the SHA-256 of the whole accumulated
buffer (not of the previous block alone).  The result always has length
exactly `L`, is a pure function of `(D, L)`, and agrees with the spec's
`h`-chain description exactly up to `L ≤ 64` (the first two blocks). -/
theorem C5_amended_expansion (data : List ℕ) (len : ℕ) :
    (sha256HashXof data len).length = len ∧
    sha256HashXof data len
      = ((fun x => x ++ sha256 x)^[len] (sha256 data)).take len ∧
    (len ≤ 64 → sha256HashXof data len = specFixedDigestXof data len) := by
  have hlen32 : (sha256 data).length = 32 := sha256_length data
  refine ⟨?_, sha256HashXof_eq_iterate data len, ?_⟩
  · rw [sha256HashXof_eq_iterate, List.length_take, iterate_append_length]
    omega
  · intro h64
    by_cases h32 : len ≤ 32
    · rw [sha256HashXof, if_pos (by omega), specFixedDigestXof, if_pos h32]
    · obtain ⟨l', rfl⟩ : ∃ l', len = l' + 1 := ⟨len - 1, by omega⟩
      have hacc : l' + 1 ≤ (sha256 data ++ sha256 (sha256 data)).length := by
        simp only [List.length_append, hlen32, sha256_length]
        omega
      rw [sha256HashXof_eq_iterate, Function.iterate_succ_apply,
          iterate_append_take _ l' _ hacc, specFixedDigestXof, if_neg h32]
      have h2 : (l' + 1 + 31) / 32 = 2 := by omega
      rw [h2, show List.range 2 = [0, 1] from rfl]
      simp

/-- Witness for the amended C5 at `D = b""`, `L = 40`. -/
theorem C5_amended_expansion_witness :
    (sha256HashXof [] 40).length = 40 ∧
    sha256HashXof [] 40 = specFixedDigestXof [] 40 :=
  ⟨(C5_amended_expansion [] 40).1, (C5_amended_expansion [] 40).2.2 (by norm_num)⟩

/-! ## XOF-Genetics organisms (`xof_genetics/organism.py`)

The hash is the abstract `HashFunction.hash` capability (any user-supplied
implementation is admitted by the source), so it is a config field
`hash_function : List ℕ → ℕ → List ℕ`.  The two `random` draws inside the
organism operators (`random.choice(mutation_masks)` in self-reproduction's
fallback and the coin flip of non-reciprocal sexual reproduction) are config
fields `pickMask` / `coin`; every theorem quantifies over them.  The
`ValueError` length guards of `mutate` / `permute` are dropped (Python's
`zip` truncation is `List.zipWith`); the claims below only ever run them on
well-formed libraries.  Organism equality (`__eq__`) is genome equality
(`orgEq`); `fitness` starts at `0.0` and `generation` at `0`. -/

inductive ReproductionMethod where
  | DIRECT_ASEXUAL
  | SELF_REPRODUCTION
  | SEXUAL
  | MUTATION
  | ROTATION
  | PERMUTATION
  | COMBINED_TRANSFORMATIONS
  | ENHANCED_SEXUAL
deriving DecidableEq

structure OrganismConfig where
  genome_length : ℕ
  hash_function : List ℕ → ℕ → List ℕ
  enabled_methods : List ReproductionMethod
  mutation_masks : List (List ℕ)
  rotation_positions : List ℤ
  permutation_maps : List (List ℕ)
  enable_reciprocal_reproduction : Bool
  pickMask : List (List ℕ) → List ℕ
  coin : Bool

structure Organism where
  genome : List ℕ
  fitness : ℚ
  generation : ℕ
deriving DecidableEq

/-- `Organism.__eq__`: genome equality (BASIC mode has no meta-genome). -/
def orgEq (o1 o2 : Organism) : Bool := o1.genome == o2.genome

/-- Python's `x in population` under `Organism.__eq__`. -/
def orgMem (o : Organism) (pop : List Organism) : Bool := pop.any (orgEq o)

/-- `direct_asexual_reproduction`'s single child. -/
def directAsexualChild (cfg : OrganismConfig) (o : Organism) : Organism :=
  { genome := cfg.hash_function o.genome cfg.genome_length
    fitness := 0
    generation := o.generation + 1 }

def direct_asexual_reproduction (cfg : OrganismConfig) (o : Organism) : List Organism :=
  [directAsexualChild cfg o]

/-- `mutate`: XOR the genome with the mask (Python `zip` truncates like
`zipWith`), hash, `generation + 1`. -/
def mutateChild (cfg : OrganismConfig) (o : Organism) (mask : List ℕ) : Organism :=
  { genome := cfg.hash_function
      (List.zipWith (fun a b => a ^^^ b) o.genome mask) cfg.genome_length
    fitness := 0
    generation := o.generation + 1 }

def organismMutate (cfg : OrganismConfig) (o : Organism) (mask : List ℕ) : List Organism :=
  [mutateChild cfg o mask]

/-- Python `%` on a signed rotation count (result in `[0, G)` for `G > 0`). -/
def pyIntMod (p : ℤ) (g : ℕ) : ℕ := ((p % (g : ℤ) + g) % (g : ℤ)).toNat

/-- `rotate`: `genome[pos:] + genome[:pos]`, hashed. -/
def rotateChild (cfg : OrganismConfig) (o : Organism) (p : ℤ) : Organism :=
  { genome := cfg.hash_function
      (o.genome.drop (pyIntMod p cfg.genome_length)
        ++ o.genome.take (pyIntMod p cfg.genome_length)) cfg.genome_length
    fitness := 0
    generation := o.generation + 1 }

def organismRotate (cfg : OrganismConfig) (o : Organism) (p : ℤ) : List Organism :=
  [rotateChild cfg o p]

/-- `permute`: `permuted[i] = genome[π[i]]`, hashed. -/
def permuteChild (cfg : OrganismConfig) (o : Organism) (pm : List ℕ) : Organism :=
  { genome := cfg.hash_function (pm.map (fun i => o.genome.getD i 0)) cfg.genome_length
    fitness := 0
    generation := o.generation + 1 }

def organismPermute (cfg : OrganismConfig) (o : Organism) (pm : List ℕ) : List Organism :=
  [permuteChild cfg o pm]

/-- `reproduce_sexually`: half-and-half pre-images hashed; two reciprocal
children by default, one coin-chosen child otherwise; generation
`max(gen1, gen2) + 1`. -/
def reproduce_sexually (cfg : OrganismConfig) (o p : Organism) : List Organism :=
  if cfg.enable_reciprocal_reproduction then
    [{ genome := cfg.hash_function
          (o.genome.take (cfg.genome_length / 2) ++ p.genome.drop (cfg.genome_length / 2))
          cfg.genome_length
       fitness := 0
       generation := max o.generation p.generation + 1 },
     { genome := cfg.hash_function
          (p.genome.take (cfg.genome_length / 2) ++ o.genome.drop (cfg.genome_length / 2))
          cfg.genome_length
       fitness := 0
       generation := max o.generation p.generation + 1 }]
  else
    [{ genome := cfg.hash_function
          (if cfg.coin then
            o.genome.take (cfg.genome_length / 2) ++ p.genome.drop (cfg.genome_length / 2)
          else
            p.genome.take (cfg.genome_length / 2) ++ o.genome.drop (cfg.genome_length / 2))
          cfg.genome_length
       fitness := 0
       generation := max o.generation p.generation + 1 }]

/-- `asexual_self_reproduction`: a direct-asexual child plus either a
self-crossover child (when SEXUAL is enabled) or a mutation with a randomly
chosen mask. -/
def asexual_self_reproduction (cfg : OrganismConfig) (o : Organism) : List Organism :=
  [directAsexualChild cfg o,
   if ReproductionMethod.SEXUAL ∈ cfg.enabled_methods then
     { genome := cfg.hash_function
          (o.genome.take (cfg.genome_length / 2) ++ o.genome.drop (cfg.genome_length / 2))
          cfg.genome_length
       fitness := 0
       generation := o.generation + 1 }
   else mutateChild cfg o (cfg.pickMask cfg.mutation_masks)]

/-- `omni_reproduce`: offspring from every method; `partner = self` when no
partner is given. -/
def omni_reproduce (cfg : OrganismConfig) (o : Organism) (pOpt : Option Organism) :
    List Organism :=
  let partner := pOpt.getD o
  direct_asexual_reproduction cfg o
    ++ direct_asexual_reproduction cfg partner
    ++ asexual_self_reproduction cfg o
    ++ asexual_self_reproduction cfg partner
    ++ reproduce_sexually cfg o partner
    ++ ((cfg.mutation_masks.take 5).map (fun mask =>
          organismMutate cfg o mask ++ organismMutate cfg partner mask)).flatten
    ++ ((cfg.rotation_positions.take 5).map (fun pos =>
          organismRotate cfg o pos ++ organismRotate cfg partner pos)).flatten
    ++ ((cfg.permutation_maps.take 5).map (fun pm =>
          organismPermute cfg o pm ++ organismPermute cfg partner pm)).flatten
    ++ ((cfg.mutation_masks.take 3).map (fun mask =>
          ((cfg.rotation_positions.take 3).map (fun pos =>
            organismRotate cfg (mutateChild cfg o mask) pos
              ++ organismRotate cfg (mutateChild cfg partner mask) pos)).flatten)).flatten
    ++ ((reproduce_sexually cfg o partner).map (fun child =>
          ((cfg.mutation_masks.take 3).map (fun mask =>
            organismMutate cfg child mask)).flatten)).flatten

/-- The parameter libraries of a (combined) reproduction strategy, as used by
`_apply_reproduction_method` (`method_weights` and `combination_strategy`
only drive the random `_select_methods` draw, which is the explicit
`methods` argument of `dualEncodedReproduction` below). -/
structure ReproductionStrategy where
  mutation_masks : List (List ℕ)
  rotation_positions : List ℤ
  permutation_maps : List (List ℕ)

/-- `_apply_reproduction_method`: one method's offspring, guarding the
partner-side contribution by `partner != self` (genome equality). -/
def applyReproductionMethod (cfg : OrganismConfig) (method : ReproductionMethod)
    (o p : Organism) (strategy : ReproductionStrategy) : List Organism :=
  match method with
  | ReproductionMethod.DIRECT_ASEXUAL =>
      direct_asexual_reproduction cfg o
        ++ (if orgEq p o then [] else direct_asexual_reproduction cfg p)
  | ReproductionMethod.SELF_REPRODUCTION =>
      asexual_self_reproduction cfg o
        ++ (if orgEq p o then [] else asexual_self_reproduction cfg p)
  | ReproductionMethod.SEXUAL => reproduce_sexually cfg o p
  | ReproductionMethod.MUTATION =>
      (strategy.mutation_masks.map (fun mask =>
        organismMutate cfg o mask
          ++ (if orgEq p o then [] else organismMutate cfg p mask))).flatten
  | ReproductionMethod.ROTATION =>
      (strategy.rotation_positions.map (fun pos =>
        organismRotate cfg o pos
          ++ (if orgEq p o then [] else organismRotate cfg p pos))).flatten
  | ReproductionMethod.PERMUTATION =>
      (strategy.permutation_maps.map (fun pm =>
        organismPermute cfg o pm
          ++ (if orgEq p o then [] else organismPermute cfg p pm))).flatten
  | ReproductionMethod.COMBINED_TRANSFORMATIONS =>
      ((strategy.mutation_masks.take 2).map (fun mask =>
        ((strategy.rotation_positions.take 2).map (fun pos =>
          organismRotate cfg (mutateChild cfg o mask) pos
            ++ (if orgEq p o then []
                else organismRotate cfg (mutateChild cfg p mask) pos))).flatten)).flatten
  | ReproductionMethod.ENHANCED_SEXUAL =>
      ((reproduce_sexually cfg o p).map (fun child =>
        ((strategy.mutation_masks.take 2).map (fun mask =>
          organismMutate cfg child mask)).flatten)).flatten

/-- `_dual_encoded_reproduction`: apply each selected method, then force
every child's generation to `max(parent generations) + 1` (the final loop of
the source).  `strategy` is the combined strategy and `methods` the output
of the (randomized) `_select_methods`. -/
def dualEncodedReproduction (cfg : OrganismConfig) (o p : Organism)
    (strategy : ReproductionStrategy) (methods : List ReproductionMethod) :
    List Organism :=
  ((methods.map (fun m => applyReproductionMethod cfg m o p strategy)).flatten).map
    (fun c => { c with generation := max o.generation p.generation + 1 })

/-! ## Evolution loop (`xof_genetics/evolution.py`)

Embedded for the deterministic configuration the claims are about: mode
`OMNI`, pairing `ELITE_VS_ELITE`, `thread_count = 1` (the source's
sequential branches, which drive the concurrent ones element-wise),
auto-population sizing disabled.  The fitness callable is an abstract
`fit : Organism → ℚ`. -/

structure EvolutionConfig where
  max_generations : ℕ
  population_cap : ℕ
  elite_fraction : ℚ

/-- Descending fitness comparison for Python's stable
`sort(key=fitness, reverse=True)`. -/
def fitGe (a b : Organism) : Prop := b.fitness ≤ a.fitness

instance : DecidableRel fitGe := fun a b => by unfold fitGe; exact inferInstance

instance : IsTotal Organism fitGe where
  total a b := le_total b.fitness a.fitness

instance : IsTrans Organism fitGe where
  trans _ _ _ hab hbc := le_trans hbc hab

/-- `population.sort(key=lambda x: x.fitness, reverse=True)` (stable). -/
def sortByFitnessDesc (pop : List Organism) : List Organism :=
  List.insertionSort fitGe pop

/-- Consecutive pairs `(c[0], c[1]), (c[2], c[3]), …` (an odd trailing
organism stays unpaired). -/
def consecPairs : List Organism → List (Organism × Organism)
  | a :: b :: rest => (a, b) :: consecPairs rest
  | _ => []

/-- `pair_organisms` with `ELITE_VS_ELITE`: sort descending by fitness and
pair consecutively; fewer than two organisms yield no pairs. -/
def pair_organisms (pop : List Organism) : List (Organism × Organism) :=
  if pop.length < 2 then [] else consecPairs (sortByFitnessDesc pop)

/-- `population.index(org)`: first index equal under `Organism.__eq__`. -/
def pyIndex (pop : List Organism) (o : Organism) : ℕ := pop.findIdx (orgEq o)

/-- The `paired_indices` set of the reproduction drivers. -/
def pairedIdx (pop : List Organism) (pairs : List (Organism × Organism)) : List ℕ :=
  (pairs.map (fun pr => [pyIndex pop pr.1, pyIndex pop pr.2])).flatten

/-- `[organism for i, organism in enumerate(population) if i not in paired_indices]`. -/
def unpairedOrganisms (pop : List Organism) (pairs : List (Organism × Organism)) :
    List Organism :=
  (pop.enum.filter (fun io => decide (io.1 ∉ pairedIdx pop pairs))).map Prod.snd

/-- `threaded_omni_reproduction` (sequential branch): omni offspring of every
pair, then omni self-reproduction of every unpaired organism. -/
def omniReproductionStep (cfg : OrganismConfig) (pop : List Organism) : List Organism :=
  let pairs := pair_organisms pop
  (pairs.map (fun pr => omni_reproduce cfg pr.1 (some pr.2))).flatten
    ++ ((unpairedOrganisms pop pairs).map (fun o => omni_reproduce cfg o (some o))).flatten

structure HistoryEntry where
  generation : ℕ
  population_size : ℕ
  best_fitness : ℚ
  avg_fitness : ℚ
deriving DecidableEq

structure EvolutionState where
  population : List Organism
  best_ever : Option Organism
  best_fitness_ever : Option ℚ
  history : List HistoryEntry
deriving DecidableEq

/-- `max(population, key=lambda x: x.fitness)`: first maximum; raises on an
empty population. -/
def pyMaxByFitness : List Organism → Except String Organism
  | [] => Except.error "max() arg is an empty sequence"
  | o :: rest =>
      Except.ok (rest.foldl (fun best x => if best.fitness < x.fitness then x else best) o)

/-- `max(org.fitness for org in population)` (only reached on non-empty
populations; the `[]` value is never used). -/
def maxFitnessOf : List Organism → ℚ
  | [] => 0
  | o :: rest => rest.foldl (fun m x => max m x.fitness) o.fitness

def sumFitnessOf (pop : List Organism) : ℚ :=
  pop.foldl (fun s o => s + o.fitness) 0

/-- `threaded_fitness_evaluation` (sequential): assign
`organism.fitness = fitness_func(organism)`. -/
def evalPop (fit : Organism → ℚ) (pop : List Organism) : List Organism :=
  pop.map (fun o => { o with fitness := fit o })

/-- The best-ever update (`float('-inf')` start is the `none` state). -/
def updatedBest (st : EvolutionState) (current : Organism) : Organism × ℚ :=
  match st.best_ever, st.best_fitness_ever with
  | some b, some bf => if bf < current.fitness then (current, current.fitness) else (b, bf)
  | _, _ => (current, current.fitness)

/-- Elitism: `if best_organism_ever not in new_population: append it`. -/
def elitismAppend (best : Organism) (newPop : List Organism) : List Organism :=
  if orgMem best newPop then newPop else newPop ++ [best]

/-- `max(1, int(len * elite_fraction))`, computed exactly on the rational
`elite_fraction = num/den`: for `elite_fraction ≥ 0` Python's truncation is the
floor `len * num / den` (`num.toNat = num`); for `elite_fraction < 0` both
sides of the outer `max` collapse to `1`. -/
def eliteSize (ecfg : EvolutionConfig) (n : ℕ) : ℕ :=
  max 1 (n * ecfg.elite_fraction.num.toNat / ecfg.elite_fraction.den)

/-- Population cap: sort by fitness descending, keep
`max(1, int(len * elite_fraction))` organisms. -/
def capTruncate (ecfg : EvolutionConfig) (pop : List Organism) : List Organism :=
  if ecfg.population_cap < pop.length then
    (sortByFitnessDesc pop).take (eliteSize ecfg pop.length)
  else pop

/-- One generation of `evolutionary_loop` (OMNI mode, sequential): evaluate,
track the best-ever organism, record history, reproduce, enforce elitism,
cap. -/
def evolutionStep (cfg : OrganismConfig) (ecfg : EvolutionConfig)
    (fit : Organism → ℚ) (generation : ℕ) (st : EvolutionState) :
    Except String EvolutionState :=
  let pop := evalPop fit st.population
  match pyMaxByFitness pop with
  | Except.error e => Except.error e
  | Except.ok current_best =>
      let bb := updatedBest st current_best
      let entry : HistoryEntry :=
        { generation := generation
          population_size := pop.length
          best_fitness := maxFitnessOf pop
          avg_fitness := sumFitnessOf pop / pop.length }
      let newPop := omniReproductionStep cfg pop
      Except.ok
        { population := capTruncate ecfg (elitismAppend bb.1 newPop)
          best_ever := some bb.1
          best_fitness_ever := some bb.2
          history := st.history ++ [entry] }

def evolWorker (cfg : OrganismConfig) (ecfg : EvolutionConfig)
    (fit : Organism → ℚ) : ℕ → ℕ → EvolutionState → Except String EvolutionState
  | 0, _, st => Except.ok st
  | Nat.succ k, gen, st =>
      match evolutionStep cfg ecfg fit gen st with
      | Except.error e => Except.error e
      | Except.ok st' => evolWorker cfg ecfg fit k (gen + 1) st'

/-- `evolutionary_loop` over `for generation in range(1, max_generations + 1)`. -/
def evolutionary_loop (cfg : OrganismConfig) (ecfg : EvolutionConfig)
    (fit : Organism → ℚ) (initial : List Organism) : Except String EvolutionState :=
  evolWorker cfg ecfg fit ecfg.max_generations 1
    { population := initial, best_ever := none, best_fitness_ever := none, history := [] }

/-! ### Concrete instances shared by the genetics claims -/

/-- A (legal, user-suppliable) constant hash capability. -/
def hashConstOne : List ℕ → ℕ → List ℕ := fun _ n => List.replicate n 1

def allMethods : List ReproductionMethod :=
  [ReproductionMethod.DIRECT_ASEXUAL, ReproductionMethod.SELF_REPRODUCTION,
   ReproductionMethod.SEXUAL, ReproductionMethod.MUTATION,
   ReproductionMethod.ROTATION, ReproductionMethod.PERMUTATION,
   ReproductionMethod.COMBINED_TRANSFORMATIONS, ReproductionMethod.ENHANCED_SEXUAL]

/-- One-byte genomes, singleton parameter libraries. -/
def cfgUnit : OrganismConfig :=
  { genome_length := 1
    hash_function := hashConstOne
    enabled_methods := allMethods
    mutation_masks := [[1]]
    rotation_positions := [0]
    permutation_maps := [[0]]
    enable_reciprocal_reproduction := true
    pickMask := fun masks => masks.headD []
    coin := true }

def orgZero : Organism := { genome := [0], fitness := 0, generation := 0 }

def orgTwo : Organism := { genome := [2], fitness := 0, generation := 0 }

def dummyOrg : Organism := { genome := [], fitness := 0, generation := 0 }

/-- **C6, counterexample.** The claim says every child of every reproduction
operator — omni included — has generation `max(parent generations) + 1`; but
`omni_reproduce` never normalizes generations, and its combined-transformation
and enhanced-sexual children are built by chaining two one-step operators, so
two generation-0 parents get children of generation 2. -/
theorem C6_counterexample :
    (omni_reproduce cfgUnit orgZero (some orgTwo)).any
      (fun c => c.generation != max orgZero.generation orgTwo.generation + 1)
      = true := by
  decide

/-- **C6, amended.** Dual-encoded reproduction (`_dual_encoded_reproduction`)
does assign every child generation `max(parent generations) + 1`, whatever
methods were selected — the final normalization loop overrides the operator
increments.  `omni_reproduce` has no such loop: its single-parent children get
that parent's generation + 1, and its combined-transformation and
enhanced-sexual children get two increments (the counterexample). -/
theorem C6_amended_dual_generation (cfg : OrganismConfig) (o p : Organism)
    (strategy : ReproductionStrategy) (methods : List ReproductionMethod) :
    ∀ c ∈ dualEncodedReproduction cfg o p strategy methods,
      c.generation = max o.generation p.generation + 1 := by
  intro c hc
  rw [dualEncodedReproduction] at hc
  obtain ⟨c', _, rfl⟩ := List.mem_map.mp hc
  rfl

/-- Witness for the amended C6: a mutation-method dual-encoded child of two
generation-0 parents has generation 1. -/
theorem C6_amended_dual_generation_witness :
    ((dualEncodedReproduction cfgUnit orgZero orgTwo
        ⟨[[1]], [0], [[0]]⟩ [ReproductionMethod.MUTATION]).headD dummyOrg).generation
      = 1 :=
  C6_amended_dual_generation cfgUnit orgZero orgTwo ⟨[[1]], [0], [[0]]⟩
    [ReproductionMethod.MUTATION] _ (by decide)

/-- **C10.** `evolutionary_loop` with an empty initial population and at
least one generation fails at the first generation's `max(population, …)`
over the empty sequence instead of returning a population. -/
theorem C10_empty_population (cfg : OrganismConfig) (ecfg : EvolutionConfig)
    (fit : Organism → ℚ) (h : 1 ≤ ecfg.max_generations) :
    evolutionary_loop cfg ecfg fit []
      = Except.error "max() arg is an empty sequence" := by
  obtain ⟨mg, cap, ef⟩ := ecfg
  match mg, h with
  | Nat.succ k, _ => rfl

def ecfgSmall : EvolutionConfig :=
  { max_generations := 2, population_cap := 2, elite_fraction := mkRat 1 10 }

/-- Witness for C10 at a concrete configuration. -/
theorem C10_empty_population_witness :
    evolutionary_loop cfgUnit ecfgSmall (fun _ => 0) []
      = Except.error "max() arg is an empty sequence" :=
  C10_empty_population cfgUnit ecfgSmall (fun _ => 0) (by norm_num [ecfgSmall])

/-- A fitness function that is `-1` on the seed genome and `-2` elsewhere. -/
def fitNeg : Organism → ℚ := fun o => if o.genome = [0] then -1 else -2

/-- `elitismAppend` really does leave the best organism in the list it hands
to cap-truncation: either it was already a member, or it is appended. -/
lemma orgMem_elitismAppend (best : Organism) (newPop : List Organism) :
    orgMem best (elitismAppend best newPop) = true := by
  unfold elitismAppend
  by_cases hmem : orgMem best newPop = true
  · simp [hmem]
  · simp only [hmem, if_false, Bool.if_false_left, Bool.if_true_left]
    simp [orgMem, orgEq, List.any_append, hmem]

/-- **C7, counterexample.** Freshly reproduced omni children carry the
unevaluated default fitness `0.0` when the cap-truncation sorts, so with
negative fitness values the appended best-ever organism sorts last and is
evicted; the recorded best fitness then drops from `-1` (generation 1) to
`-2` (generation 2), refuting `max_fitness(new) ≥ max_fitness(old)`. -/
theorem C7_counterexample :
    ((evolutionary_loop cfgUnit ecfgSmall fitNeg [orgZero]).toOption.map
        (fun st => st.history.map (fun e => e.best_fitness))
      = some [-1, -2]) ∧ ((-2 : ℚ) < -1) := by
  constructor
  · decide
  · norm_num

/-- **C7, amended.** What every successful generation does guarantee: the
updated best-ever organism is recorded in the new state, it is a member (under
`Organism.__eq__`, i.e. genome equality) of the population handed to
cap-truncation — `elitismAppend` appends it when missing — and the tracked
`best_fitness_ever` never decreases.  The claim's stronger
`max_fitness(new) ≥ max_fitness(old)` for the *surviving* population is false:
cap-truncation sorts by stored fitness, and freshly reproduced children carry
the unevaluated default `0.0`, so the appended best-ever organism is evicted
whenever its fitness is below the default (the counterexample). -/
theorem C7_amended_elitism (cfg : OrganismConfig) (ecfg : EvolutionConfig)
    (fit : Organism → ℚ) (gen : ℕ) (st st' : EvolutionState)
    (h : evolutionStep cfg ecfg fit gen st = Except.ok st') :
    ∃ current, pyMaxByFitness (evalPop fit st.population) = Except.ok current ∧
      st'.best_ever = some (updatedBest st current).1 ∧
      st'.best_fitness_ever = some (updatedBest st current).2 ∧
      orgMem (updatedBest st current).1
        (elitismAppend (updatedBest st current).1
          (omniReproductionStep cfg (evalPop fit st.population))) = true ∧
      ∀ b bf, st.best_ever = some b → st.best_fitness_ever = some bf →
        bf ≤ (updatedBest st current).2 := by
  rcases hm : pyMaxByFitness (evalPop fit st.population) with e | current
  · rw [evolutionStep] at h
    simp only [hm] at h
    exact Except.noConfusion h
  · rw [evolutionStep] at h
    simp only [hm, Except.ok.injEq] at h
    subst h
    refine ⟨current, rfl, rfl, rfl, orgMem_elitismAppend _ _, ?_⟩
    intro b bf hb hbf
    rw [updatedBest, hb, hbf]
    dsimp only
    split_ifs with hlt
    · exact le_of_lt hlt
    · exact le_refl bf

def stW : EvolutionState :=
  { population := [orgZero], best_ever := none, best_fitness_ever := none, history := [] }

def stW' : EvolutionState :=
  (evolutionStep cfgUnit ecfgSmall fitNeg 1 stW).toOption.getD stW

/-- Witness for the amended C7 at a concrete one-organism first generation. -/
theorem C7_amended_elitism_witness :
    ∃ current, pyMaxByFitness (evalPop fitNeg stW.population) = Except.ok current ∧
      stW'.best_ever = some (updatedBest stW current).1 ∧
      stW'.best_fitness_ever = some (updatedBest stW current).2 ∧
      orgMem (updatedBest stW current).1
        (elitismAppend (updatedBest stW current).1
          (omniReproductionStep cfgUnit (evalPop fitNeg stW.population))) = true ∧
      ∀ b bf, stW.best_ever = some b → stW.best_fitness_ever = some bf →
        bf ≤ (updatedBest stW current).2 :=
  C7_amended_elitism cfgUnit ecfgSmall fitNeg 1 stW stW'
    (by set_option maxRecDepth 100000 in rfl)

/-! ### Licensee license manager (`license_data.py`, `encoding.py`,
`license_manager.py`)

Strings are lists of character codes, bytes are lists of naturals below 256.
The RSA-PSS signing and verification oracles, the current time, and the RNG
draws are explicit parameters. -/

/-- The 32-character alphabet `0123456789ABCDEFGHJKMNPQRSTWVXYZ` as ASCII
codes. -/
def ALPHABET : List ℕ :=
  [48, 49, 50, 51, 52, 53, 54, 55, 56, 57,
   65, 66, 67, 68, 69, 70, 71, 72,
   74, 75, 77, 78, 80, 81, 82, 83, 84, 87, 86, 88, 89, 90]

/-- `ALPHABET_MAP` lookup: the index of a character, `none` when absent. -/
def alphaIdx (c : ℕ) : Option ℕ :=
  if c ∈ ALPHABET then some (ALPHABET.indexOf c) else none

/-- `int.from_bytes(bs, "big")`. -/
def bytesToNat (bs : List ℕ) : ℕ := bs.foldl (fun a b => a * 256 + b) 0

/-- `n.to_bytes(len, "big")` (every caller constructs `n < 2^(8·len)`). -/
def natToBytesBE (len n : ℕ) : List ℕ :=
  (List.range len).map (fun i => (n >>> (8 * (len - 1 - i))) % 256)

/-- The accumulation loop shared by `chars_to_bits` and
`alphabet_string_to_bytes`: `all_bits = (all_bits << 5) | ALPHABET_MAP[char]`,
raising on a character outside the alphabet. -/
def charsToBitsNum : List ℕ → ℕ → Except String ℕ
  | [], acc => Except.ok acc
  | c :: rest, acc =>
      match alphaIdx c with
      | none => Except.error "Invalid character in encoded string"
      | some i => charsToBitsNum rest ((acc <<< 5) ||| i)

/-- `chars_to_bits` (`encoding.py`): exactly 30 alphabet characters decode to
the 19-byte, 150-bit payload (MSB-aligned, hence the final shift by 2). -/
def chars_to_bits (encoded : List ℕ) : Except String (List ℕ) :=
  if encoded.length ≠ 30 then Except.error "Expected 30 characters"
  else
    match charsToBitsNum encoded 0 with
    | Except.error e => Except.error e
    | Except.ok all => Except.ok (natToBytesBE 19 (all <<< 2))

/-- `alphabet_string_to_bytes` (`encoding.py`): decode, keep the most
significant `expected_total_bits` bits, repack MSB-aligned. -/
def alphabet_string_to_bytes (s : List ℕ) (expected_total_bits : ℕ) :
    Except String (List ℕ) :=
  match charsToBitsNum s 0 with
  | Except.error e => Except.error e
  | Except.ok all =>
      if 5 * s.length < expected_total_bits then
        Except.error "Input string contains less than expected bits"
      else
        Except.ok (natToBytesBE ((expected_total_bits + 7) / 8)
          ((all >>> (5 * s.length - expected_total_bits)) <<<
            (8 * ((expected_total_bits + 7) / 8) - expected_total_bits)))

/-- The `while bits_remaining > 0` loop of `bytes_to_alphabet_string`
(fuel-indexed, fuel ≥ remaining bits): up to 5 bits per character, MSB first,
a short final chunk left-aligned to 5 bits.  The index is below 32, so the
`getD` default is never used. -/
def alphaEncodeFuel (allBits : ℕ) : ℕ → ℕ → List ℕ
  | 0, _ => []
  | Nat.succ _, 0 => []
  | Nat.succ f, Nat.succ br =>
      let tk := min 5 (Nat.succ br)
      let five := (allBits >>> (Nat.succ br - tk)) &&& (2 ^ tk - 1)
      let five2 := if tk < 5 then five <<< (5 - tk) else five
      ALPHABET.getD five2 48 :: alphaEncodeFuel allBits f (Nat.succ br - tk)

/-- `bytes_to_alphabet_string` (`encoding.py`). -/
def bytes_to_alphabet_string (bs : List ℕ) : List ℕ :=
  alphaEncodeFuel (bytesToNat bs) (8 * bs.length) (8 * bs.length)

/-- The slicing loop `[s[i:i+5] for i in range(0, len(s), 5)]` (fuel ≥
length). -/
def chunks5Fuel : ℕ → List ℕ → List (List ℕ)
  | 0, _ => []
  | Nat.succ _, [] => []
  | Nat.succ f, c :: rest => (c :: rest).take 5 :: chunks5Fuel f ((c :: rest).drop 5)

/-- `"-".join(segments)` (hyphen = ASCII 45). -/
def joinHyphen : List (List ℕ) → List ℕ
  | [] => []
  | [c] => c
  | c :: c2 :: rest => c ++ 45 :: joinHyphen (c2 :: rest)

/-- Python `str.split("-")` on code lists: split at every separator, keeping
empty segments. -/
def pySplit (sep : ℕ) : List ℕ → List (List ℕ)
  | [] => [[]]
  | c :: rest =>
      let r := pySplit sep rest
      if c = sep then [] :: r
      else (c :: r.headD []) :: r.tail

/-- `LicenseData` (`license_data.py`): the packed fields.  `swap_param` is the
float carried alongside (exact rational here). -/
structure LicenseData where
  mode_flag : ℕ
  swap_param : ℚ
  issue_date_days : ℕ
  license_plan : ℕ
  duration_days : ℕ
  key_holder_group : ℕ
  unique_license_id : ℕ
  version_lock : ℕ
  simple_checksum : ℕ
  entropy_bits : ℕ
  entropy_value : ℕ

/-- `calculate_simple_checksum`: field sum modulo
`1 << BIT_ALLOCATIONS["simple_checksum"] = 32`. -/
def calculate_simple_checksum (ld : LicenseData) : ℕ :=
  (ld.mode_flag + ld.issue_date_days + ld.license_plan + ld.duration_days +
    ld.key_holder_group + ld.unique_license_id + ld.version_lock) % 32

/-- `int(swap_param * 255)`: float truncation toward zero; for the generator's
`swap_param ∈ [0, 1)` this is the floor (negative products clamp to 0). -/
def swapParamInt (q : ℚ) : ℕ := (Rat.floor (q * 255)).toNat

/-- The `pack_value` loop of `LicenseData.to_bits`: each value must fit its
bit width, values are ORed in from the MSB end; returns the accumulated bits
and the final `current_bit_pos`. -/
def packBitsAux : List (ℕ × ℕ) → ℕ → ℕ → Except String (ℕ × ℕ)
  | [], acc, pos => Except.ok (acc, pos)
  | (v, nb) :: rest, acc, pos =>
      if 2 ^ nb ≤ v then Except.error "Value exceeds bit capacity"
      else packBitsAux rest (acc ||| (v <<< (pos - nb))) (pos - nb)

/-- `LicenseData.to_bits`: pack `mode_flag`, the swap parameter when
`mode_flag = 1`, the seven fixed fields, then the entropy (after the
`RuntimeError` consistency check of `current_bit_pos` against
`entropy_bits`), MSB-aligned into 19 bytes (150 bits shifted left by 2). -/
def licenseDataToBits (ld : LicenseData) : Except String (List ℕ) :=
  match packBitsAux
      ([(ld.mode_flag, 1)]
        ++ (if ld.mode_flag = 1 then [(swapParamInt ld.swap_param, 8)] else [])
        ++ [(ld.issue_date_days, 14), (ld.license_plan, 4), (ld.duration_days, 10),
            (ld.key_holder_group, 8), (ld.unique_license_id, 32),
            (ld.version_lock, 8), (ld.simple_checksum, 5)]) 0 150 with
  | Except.error e => Except.error e
  | Except.ok fixedPacked =>
      if fixedPacked.2 ≠ ld.entropy_bits then
        Except.error "Bit packing error"
      else
        match packBitsAux [(ld.entropy_value, ld.entropy_bits)]
            fixedPacked.1 fixedPacked.2 with
        | Except.error e => Except.error e
        | Except.ok allPacked => Except.ok (natToBytesBE 19 (allPacked.1 <<< 2))

/-- `unpack_value`: `(new_pos, (all_bits >> new_pos) & mask)`. -/
def unpackField (all pos nb : ℕ) : ℕ × ℕ :=
  (pos - nb, (all >>> (pos - nb)) &&& (2 ^ nb - 1))

/-- `LicenseData.from_bits`: at least 150 bits, keep the most significant 150,
unpack from the MSB down; entropy width depends on the unpacked mode flag. -/
def licenseDataFromBits (bs : List ℕ) : Except String LicenseData :=
  if 8 * bs.length < 150 then
    Except.error "Provided bytes contain less than 150 bits"
  else
    let all := bytesToNat bs >>> (8 * bs.length - 150)
    let m := unpackField all 150 1
    let s := if m.2 = 1 then unpackField all m.1 8 else (m.1, 0)
    let d1 := unpackField all s.1 14
    let d2 := unpackField all d1.1 4
    let d3 := unpackField all d2.1 10
    let d4 := unpackField all d3.1 8
    let d5 := unpackField all d4.1 32
    let d6 := unpackField all d5.1 8
    let d7 := unpackField all d6.1 5
    let ebits := 150 - (1 + (if m.2 = 1 then 8 else 0) + 14 + 4 + 10 + 8 + 32 + 8 + 5)
    Except.ok
      { mode_flag := m.2
        swap_param := if m.2 = 1 then (s.2 : ℚ) / 255 else 0
        issue_date_days := d1.2
        license_plan := d2.2
        duration_days := d3.2
        key_holder_group := d4.2
        unique_license_id := d5.2
        version_lock := d6.2
        simple_checksum := d7.2
        entropy_bits := ebits
        entropy_value := (unpackField all d7.1 ebits).2 }

/-- The fixed (non-entropy) bit count of `generate_license_key` /
`from_bits`: 90 when the swap parameter is packed, 82 otherwise (so
`entropy_bits = 60` resp. `68`, never negative — the `ValueError` guard on
`entropy_bits < 0` is unreachable). -/
def fixedDataBits (mode_flag : ℕ) : ℕ :=
  1 + (if mode_flag = 1 then 8 else 0) + 14 + 4 + 10 + 8 + 32 + 8 + 5

/-- Steps 1-6 of `generate_license_key` on the assembled `LicenseData`: pack
to 19 bytes, sign those payload bytes, concatenate payload and signature,
alphabet-encode, sine-permute the 440 characters with the swap parameter, and
join the 5-character segments with hyphens. -/
def generateKeyFromData (sinA : ℚ → ℚ) (sign : List ℕ → List ℕ)
    (swap_param : ℚ) (final : LicenseData) : Except String (List ℕ) :=
  match licenseDataToBits final with
  | Except.error e => Except.error e
  | Except.ok license_data_bytes =>
      match get_permutation_map sinA swap_param with
      | Except.error e => Except.error e
      | Except.ok perm_map =>
          match apply_permutation
              (bytes_to_alphabet_string (license_data_bytes ++ sign license_data_bytes))
              perm_map with
          | Except.error e => Except.error e
          | Except.ok permuted =>
              Except.ok (joinHyphen (chunks5Fuel permuted.length permuted))

/-- `generate_license_key` (`license_manager.py`).  Environment inputs are
explicit: `sign` is the RSA-PSS signing oracle applied to the 19 payload
bytes, `rand_swap` is `random.random()`, `rand_entropy` is
`random.getrandbits(entropy_bits)` (reduced modulo `2^entropy_bits`, the
guarantee `getrandbits` provides), `issue_date_days` today's day count (the
negative-days clamp is the natural-number domain), and `sinA` abstracts
`math.sin` for the permutation map. -/
def generate_license_key (sinA : ℚ → ℚ) (sign : List ℕ → List ℕ)
    (license_plan duration_days key_holder_group unique_license_id version_lock : ℕ)
    (use_included_swap_param : Bool) (fixed_swap_param : Option ℚ)
    (rand_swap : ℚ) (rand_entropy : ℕ) (issue_date_days : ℕ) :
    Except String (List ℕ) :=
  match use_included_swap_param, fixed_swap_param with
  | false, none =>
      Except.error "fixed_swap_param must be provided if use_included_swap_param is False"
  | _, _ =>
      let mode_flag := if use_included_swap_param then 1 else 0
      let swap_param :=
        if use_included_swap_param then rand_swap else fixed_swap_param.getD 0
      let entropy_bits := 150 - fixedDataBits mode_flag
      let entropy_value := if 0 < entropy_bits then rand_entropy % 2 ^ entropy_bits else 0
      let temp : LicenseData :=
        { mode_flag := mode_flag
          swap_param := swap_param
          issue_date_days := issue_date_days
          license_plan := license_plan
          duration_days := duration_days
          key_holder_group := key_holder_group
          unique_license_id := unique_license_id
          version_lock := version_lock
          simple_checksum := 0
          entropy_bits := entropy_bits
          entropy_value := 0 }
      let final : LicenseData :=
        { temp with
            simple_checksum := calculate_simple_checksum temp
            entropy_value := entropy_value }
      generateKeyFromData sinA sign swap_param final

/-- The parse stage of `validate_license_key` (lines 243-269): split on
hyphens into exactly 7 parts, rejoin the first six into the permuted
character block, which must have length 440; that block (ASCII-encoded) is
`data_to_verify`, the byte string the signature is checked against. -/
def validateDataToVerify (key : List ℕ) : Option (List ℕ) :=
  let parts := pySplit 45 key
  if parts.length ≠ 7 then none
  else
    let permuted_chars := (parts.take 6).flatten
    if permuted_chars.length ≠ TOTAL_CHARS_TO_PERMUTE then none
    else some permuted_chars

/-- One un-permute-and-unpack attempt of the robust helper: permutation map
from the candidate swap parameter, inverse map, inverse permutation, 30-char
decode, `from_bits`; any raised `ValueError` makes the attempt fail. -/
def robustAttempt (sinA : ℚ → ℚ) (permuted_chars : List ℕ) (s : ℚ) :
    Option LicenseData :=
  match get_permutation_map sinA s with
  | Except.error _ => none
  | Except.ok pm =>
      match apply_inverse_permutation permuted_chars
          (get_inverse_permutation_map pm TOTAL_CHARS_TO_PERMUTE) with
      | Except.error _ => none
      | Except.ok original_chars =>
          match chars_to_bits original_chars with
          | Except.error _ => none
          | Except.ok bs =>
              match licenseDataFromBits bs with
              | Except.error _ => none
              | Except.ok ld => some ld

/-- `get_mode_and_swap_param_from_permuted_chars_robust`: the hardcoded
mode-0 attempt when a parameter is supplied, otherwise the 256-value
brute force of an included (mode-1) swap parameter; the `(-1, 0.0, None)`
failure sentinel is `none`. -/
def robustModeAndSwap (sinA : ℚ → ℚ) (permuted_chars : List ℕ)
    (hardcoded : Option ℚ) : Option (ℕ × ℚ × LicenseData) :=
  match hardcoded with
  | some h =>
      match robustAttempt sinA permuted_chars h with
      | some ld =>
          if ld.mode_flag = 0 ∧ ld.simple_checksum = calculate_simple_checksum ld then
            some (0, h, ld)
          else none
      | none => none
  | none =>
      (List.range 256).findSome? (fun k =>
        let current : ℚ := (k : ℚ) / 255
        match robustAttempt sinA permuted_chars current with
        | some ld =>
            if ld.mode_flag = 1 ∧ |ld.swap_param - current| < 1 / 100 ∧
                ld.simple_checksum = calculate_simple_checksum ld then
              some (1, current, ld)
            else none
        | none => none)

/-- `validate_license_key` (`license_manager.py`): `verify` abstracts RSA-PSS
verification under the loaded public key, `expired` abstracts the
`now_utc > expiry_date` test on (issue days, duration days). -/
def validate_license_key (sinA : ℚ → ℚ) (verify : List ℕ → List ℕ → Bool)
    (expired : ℕ → ℕ → Bool) (key : List ℕ) (current_app_version : ℕ)
    (hardcoded_swap_param : Option ℚ) : Option LicenseData :=
  match validateDataToVerify key with
  | none => none
  | some permuted_chars =>
      match alphabet_string_to_bytes ((pySplit 45 key).getD 6 []) 2048 with
      | Except.error _ => none
      | Except.ok signature_bytes =>
          if ¬ verify permuted_chars signature_bytes then none
          else
            match robustModeAndSwap sinA permuted_chars hardcoded_swap_param with
            | none => none
            | some found =>
                let ld := found.2.2
                if found.1 ≠ ld.mode_flag then none
                else if ld.simple_checksum ≠ calculate_simple_checksum ld then none
                else if expired ld.issue_date_days ld.duration_days then none
                else if 0 < ld.version_lock ∧ ld.version_lock ≠ current_app_version then
                  none
                else some ld

lemma natToBytesBE_length (len n : ℕ) : (natToBytesBE len n).length = len := by
  simp [natToBytesBE]

/-- `str.split` produces one part per separator occurrence, plus one. -/
lemma pySplit_length (sep : ℕ) : ∀ l : List ℕ,
    (pySplit sep l).length = l.count sep + 1 := by
  intro l
  induction l with
  | nil => rfl
  | cons c rest ih =>
      rw [pySplit]
      by_cases hc : c = sep
      · simp [hc, List.count_cons, ih]
      · have hlen : 1 ≤ (pySplit sep rest).length := by rw [ih]; omega
        simp only [hc, if_false, List.length_cons, List.length_tail]
        rw [ih] at hlen ⊢
        simp [List.count_cons, hc]

/-- `"-".join` contains at least one hyphen between consecutive segments. -/
lemma joinHyphen_count : ∀ cs : List (List ℕ),
    cs.length ≤ (joinHyphen cs).count 45 + 1
  | [] => by simp
  | [c] => by simp
  | c :: c2 :: rest => by
      have ih := joinHyphen_count (c2 :: rest)
      rw [joinHyphen]
      simp only [List.count_append, List.count_cons_self, List.length_cons] at *
      omega

/-- The 5-slicing produces `⌈length / 5⌉` segments. -/
lemma chunks5Fuel_length : ∀ (f : ℕ) (l : List ℕ), l.length ≤ f →
    (chunks5Fuel f l).length = (l.length + 4) / 5
  | 0, l, h => by
      have : l = [] := List.eq_nil_of_length_eq_zero (Nat.le_zero.mp h)
      subst this; rfl
  | Nat.succ _, [], _ => rfl
  | Nat.succ f, c :: rest, h => by
      have ih := chunks5Fuel_length f ((c :: rest).drop 5)
        (by simp only [List.length_drop, List.length_cons] at *; omega)
      rw [chunks5Fuel]
      simp only [List.length_cons, List.length_drop] at ih ⊢
      rw [ih]
      omega

/-- Every key produced by steps 1-6 consists of 88 five-character segments,
so splitting it on hyphens yields at least 88 parts. -/
lemma generateKeyFromData_many_parts (sinA : ℚ → ℚ) (sign : List ℕ → List ℕ)
    (swap_param : ℚ) (final : LicenseData) (key : List ℕ)
    (h : generateKeyFromData sinA sign swap_param final = Except.ok key) :
    7 < (pySplit 45 key).length := by
  rw [generateKeyFromData] at h
  split at h
  · exact absurd h (by simp)
  · split at h
    · exact absurd h (by simp)
    · split at h
      · exact absurd h (by simp)
      · rename_i permuted heq2
        injection h with h
        subst h
        have hperm : permuted.length = 440 := by
          rw [apply_permutation] at heq2
          split at heq2
          · exact absurd heq2 (by simp)
          · split at heq2
            · exact absurd heq2 (by simp)
            · injection heq2 with heq2
              rw [← heq2, applyPermCore_length]
              rfl
        have hchunks : (chunks5Fuel permuted.length permuted).length = 88 := by
          rw [chunks5Fuel_length permuted.length permuted le_rfl, hperm]
        have hcount := joinHyphen_count (chunks5Fuel permuted.length permuted)
        rw [hchunks] at hcount
        rw [pySplit_length]
        omega

/-- Every successfully generated key splits into more than 7 hyphen parts. -/
lemma generated_key_many_parts (sinA : ℚ → ℚ) (sign : List ℕ → List ℕ)
    (license_plan duration_days key_holder_group unique_license_id version_lock : ℕ)
    (use_included_swap_param : Bool) (fixed_swap_param : Option ℚ)
    (rand_swap : ℚ) (rand_entropy issue_date_days : ℕ) (key : List ℕ)
    (h : generate_license_key sinA sign license_plan duration_days
      key_holder_group unique_license_id version_lock use_included_swap_param
      fixed_swap_param rand_swap rand_entropy issue_date_days = Except.ok key) :
    7 < (pySplit 45 key).length := by
  cases use_included_swap_param with
  | false =>
      cases fixed_swap_param with
      | none => exact absurd h (by rw [generate_license_key]; simp)
      | some f =>
          rw [generate_license_key] at h
          · exact generateKeyFromData_many_parts _ _ _ _ _ h
          · simp
  | true =>
      cases fixed_swap_param with
      | none =>
          rw [generate_license_key] at h
          · exact generateKeyFromData_many_parts _ _ _ _ _ h
          · simp
      | some f =>
          rw [generate_license_key] at h
          · exact generateKeyFromData_many_parts _ _ _ _ _ h
          · simp

/-- **C2.** The generation/validation round-trip never succeeds: a generated
key is 88 hyphen-separated 5-character segments, but validation demands
exactly 7 hyphen parts and rejects at the parse step, so
`validate_license_key(generate_license_key(...))` is `None` for every input,
in both swap-parameter modes, whatever signing/verification oracles, clock,
version, and hardcoded parameter are supplied — refuting the claimed
round-trip (the code, not the spec's intent, is at fault: the module's own
`__main__` test and the comments at lines 196-202 expect validation to
succeed). -/
theorem C2_roundtrip_never_validates (sinA : ℚ → ℚ) (sign : List ℕ → List ℕ)
    (verify : List ℕ → List ℕ → Bool) (expired : ℕ → ℕ → Bool)
    (license_plan duration_days key_holder_group unique_license_id version_lock : ℕ)
    (use_included_swap_param : Bool) (fixed_swap_param : Option ℚ)
    (rand_swap : ℚ) (rand_entropy issue_date_days : ℕ)
    (current_app_version : ℕ) (hardcoded_swap_param : Option ℚ) :
    (generate_license_key sinA sign license_plan duration_days key_holder_group
        unique_license_id version_lock use_included_swap_param fixed_swap_param
        rand_swap rand_entropy issue_date_days).toOption.bind
      (fun key => validate_license_key sinA verify expired key
        current_app_version hardcoded_swap_param) = none := by
  rcases hg : generate_license_key sinA sign license_plan duration_days
      key_holder_group unique_license_id version_lock use_included_swap_param
      fixed_swap_param rand_swap rand_entropy issue_date_days with e | key
  · rfl
  · have h7 := generated_key_many_parts sinA sign license_plan duration_days
      key_holder_group unique_license_id version_lock use_included_swap_param
      fixed_swap_param rand_swap rand_entropy issue_date_days key hg
    have hparse : validateDataToVerify key = none := by
      rw [validateDataToVerify]
      exact if_pos (by omega)
    show validate_license_key sinA verify expired key current_app_version
      hardcoded_swap_param = none
    rw [validate_license_key, hparse]

/-- **C4.** Signature coverage: generation signs exactly the 19 packed
payload bytes, but validation's `data_to_verify` is the 440-character
permuted block rebuilt from the first six hyphen parts — never those 19
payload bytes (the signature itself is expected in a seventh part that
generation never emits). -/
theorem C4_signature_coverage (ld : LicenseData) (bs : List ℕ) (key d : List ℕ)
    (hpack : licenseDataToBits ld = Except.ok bs)
    (hparse : validateDataToVerify key = some d) :
    bs.length = 19 ∧ d = ((pySplit 45 key).take 6).flatten ∧
      d.length = 440 ∧ bs.length ≠ d.length := by
  have hbs : bs.length = 19 := by
    rw [licenseDataToBits] at hpack
    split at hpack
    · exact absurd hpack (by simp)
    · split at hpack
      · exact absurd hpack (by simp)
      · split at hpack
        · exact absurd hpack (by simp)
        · injection hpack with hpack
          rw [← hpack, natToBytesBE_length]
  simp only [validateDataToVerify] at hparse
  split at hparse
  · exact absurd hparse (by simp)
  · split at hparse
    · exact absurd hparse (by simp)
    · rename_i hlen
      injection hparse with hparse
      subst hparse
      rw [TOTAL_CHARS_TO_PERMUTE] at hlen
      refine ⟨hbs, rfl, ?_, ?_⟩
      · omega
      · omega

/-- A concrete all-zero mode-0 payload (`entropy_bits = 68` matches the
packer's `current_bit_pos` check). -/
def ldZero : LicenseData :=
  { mode_flag := 0, swap_param := 0, issue_date_days := 0, license_plan := 0,
    duration_days := 0, key_holder_group := 0, unique_license_id := 0,
    version_lock := 0, simple_checksum := 0, entropy_bits := 68,
    entropy_value := 0 }

/-- A syntactically parseable 7-part key: one 440-character block and six
empty segments. -/
def keySevenParts : List ℕ := List.replicate 440 48 ++ List.replicate 6 45

/-- Witness for C4 at the all-zero payload and a parseable 7-part key. -/
theorem C4_signature_coverage_witness :
    (natToBytesBE 19 0).length = 19 ∧
      List.replicate 440 48 = ((pySplit 45 keySevenParts).take 6).flatten ∧
      (List.replicate 440 48).length = 440 ∧
      (natToBytesBE 19 0).length ≠ (List.replicate 440 48).length :=
  C4_signature_coverage ldZero (natToBytesBE 19 0) keySevenParts
    (List.replicate 440 48) (by set_option maxRecDepth 100000 in rfl)
    (by set_option maxRecDepth 100000 in rfl)

end Perturbarium
